import Mathlib

/-!
Verification of the discrete-time trajectory simulators of this repository.

Three functions are embedded:

* `simulate_motion` from `src/python/3d_visualization/two_balls_bounce.py`
  (record positions, wall test, Euler advance, per body);
* `simulate_motion` from `src/python/3d_visualization/two_balls_cross.py`
  (record positions, Euler advance, no boundary);
* `simulate` from `src/python/3d_visualization/birthday_station.py`
  (Euler advance, radial boundary test on the post-advance position,
  clamp-and-stop).

Floating-point arithmetic is modelled exactly: by `ℚ` where the code uses
only field operations and comparisons, and by `ℝ` where `np.hypot`
(a square root) is involved.  A small explicit-heap model captures the
numpy array copying/mutation of the two `simulate_motion` variants.
-/

namespace TwoBallsBounce

/-- A row of a numpy `(n, 3)` array: one body's position or velocity. -/
abbrev Vec3 := ℚ × ℚ × ℚ

/-- One body's state `(position row, velocity row)`.  The source keeps two
parallel arrays `positions` / `velocities` sharing the body index; the pair
of arrays is modelled as one list of zipped rows. -/
abbrev Body := Vec3 × Vec3

/-- Negation of the x-component, as in `velocities[index, 0] *= -1.0`. -/
def flipX (v : Vec3) : Vec3 := (-v.1, v.2.1, v.2.2)

/-- The wall test of `simulate_motion` (two_balls_bounce.py line 55):
`if positions[index, 0] >= wall_x_position: velocities[index, 0] *= -1.0`. -/
def checkBody (wall_x_position : ℚ) (b : Body) : Body :=
  if wall_x_position ≤ b.1.1 then (b.1, flipX b.2) else b

/-- The Euler advance of one body (two_balls_bounce.py line 58):
`positions[index] += velocities[index] * time_step`. -/
def advanceBody (time_step : ℚ) (b : Body) : Body :=
  ((b.1.1 + b.2.1 * time_step,
    b.1.2.1 + b.2.2.1 * time_step,
    b.1.2.2 + b.2.2.2 * time_step), b.2)

/-- One pass of the `for index in range(len(positions))` body in
`simulate_motion` of two_balls_bounce.py for a single body: the wall test
runs first, on the position held at the start of the step, and only then
is the position advanced. -/
def bounceBody (wall_x_position time_step : ℚ) (b : Body) : Body :=
  advanceBody time_step (checkBody wall_x_position b)

/-- One iteration of the `while` loop of `simulate_motion`
(two_balls_bounce.py lines 54-58), acting on every body independently. -/
def bounceStep (wall_x_position time_step : ℚ) (s : List Body) : List Body :=
  s.map (bounceBody wall_x_position time_step)

/-- Number of iterations of `while current_time <= stop_time` where
`current_time` starts at `0.0` and grows by `time_step` per iteration: the
loop body runs for `current_time = k * time_step`, `k = 0, 1, ...`, hence
`⌊stop_time / time_step⌋ + 1` times when `time_step > 0 ≤ stop_time`, and
`0` times when `stop_time < 0`.  For `time_step ≤ 0 ≤ stop_time` the
Python loop never terminates; the value returned in that case is junk and
the theorems below assume `0 < time_step`. -/
def numSteps (time_step stop_time : ℚ) : ℕ :=
  if 0 < time_step ∧ 0 ≤ stop_time then
    (Int.floor (stop_time / time_step)).toNat + 1
  else 0

/-- The recording loop of `simulate_motion` (two_balls_bounce.py): each
iteration first appends `positions.copy()` to the output and then runs the
per-body wall-test / advance step.  The fuel argument is the iteration
count of the `while` loop. -/
def bounceLoop (wall_x_position time_step : ℚ) :
    ℕ → List Body → List (List Vec3)
  | 0, _ => []
  | n + 1, s =>
      s.map Prod.fst ::
        bounceLoop wall_x_position time_step n
          (bounceStep wall_x_position time_step s)

/-- Shallow embedding of `simulate_motion` from two_balls_bounce.py
(lines 35-62): simulate elastic collisions with a vertical wall at
`x = wall_x_position`, returning the list of per-step position arrays. -/
def simulate_motion (initial_positions initial_velocities : List Vec3)
    (wall_x_position time_step stop_time : ℚ) : List (List Vec3) :=
  bounceLoop wall_x_position time_step (numSteps time_step stop_time)
    (initial_positions.zip initial_velocities)

/-- Modelled from the spec: the spec's step order (section 4.1) for a
reflect rule — advance the position first, then evaluate the wall
predicate against the post-advance position.  Counterpart of `bounceBody`
with the two phases exchanged. -/
def postBody (wall_x_position time_step : ℚ) (b : Body) : Body :=
  checkBody wall_x_position (advanceBody time_step b)

/-- Modelled from the spec: one whole-state step in the spec's order. -/
def postStep (wall_x_position time_step : ℚ) (s : List Body) : List Body :=
  s.map (postBody wall_x_position time_step)

/-- Modelled from the spec: the recording loop with the spec's step order,
with the same iteration count and the same record-then-step shape as the
source's loop, so that only the advance/test order differs. -/
def postLoop (wall_x_position time_step : ℚ) :
    ℕ → List Body → List (List Vec3)
  | 0, _ => []
  | n + 1, s =>
      s.map Prod.fst ::
        postLoop wall_x_position time_step n
          (postStep wall_x_position time_step s)

/-- Modelled from the spec: `simulate_motion` as the spec describes it,
testing the wall rule on the post-advance position of the current step. -/
def simulateMotionPostCheck (initial_positions initial_velocities : List Vec3)
    (wall_x_position time_step stop_time : ℚ) : List (List Vec3) :=
  postLoop wall_x_position time_step (numSteps time_step stop_time)
    (initial_positions.zip initial_velocities)

/-- The internal `(positions, velocities)` state of `simulate_motion` at
the moment the k-th record is appended (k loop iterations done). -/
def bounceState (initial_positions initial_velocities : List Vec3)
    (wall_x_position time_step : ℚ) (k : ℕ) : List Body :=
  (bounceStep wall_x_position time_step)^[k]
    (initial_positions.zip initial_velocities)

/-- Junk body used as the default of list lookups. -/
def defaultBody : Body := ((0, 0, 0), (0, 0, 0))

end TwoBallsBounce

namespace BirthdayStation

/-- The norm `np.hypot(current_x, current_y)` (birthday_station.py
line 65). -/
noncomputable def hypot (x y : ℝ) : ℝ := Real.sqrt (x ^ 2 + y ^ 2)

/-- The radial boundary test `radius >= inner_radius` guarding the clamp
branch (birthday_station.py line 66). -/
def clampGuard (inner_radius x y : ℝ) : Prop := inner_radius ≤ hypot x y

/-- The radial clamp `current = inner_radius * current / radius`
(birthday_station.py lines 67-68). -/
noncomputable def radialClamp (inner_radius x y : ℝ) : ℝ × ℝ :=
  (inner_radius * x / hypot x y, inner_radius * y / hypot x y)

/-- A trajectory entry `(x, y, time)` as appended to the three parallel
lists of `simulate`. -/
abbrev Entry := ℝ × ℝ × ℝ

/-- The Euler advance of `simulate` (birthday_station.py lines 61-63):
position moves by `velocity * time_step` and the clock by `time_step`. -/
noncomputable def advanceEntry (velocity_x velocity_y time_step : ℝ)
    (e : Entry) : Entry :=
  (e.1 + velocity_x * time_step, e.2.1 + velocity_y * time_step,
    e.2.2 + time_step)

/-- The clamped entry recorded when the boundary is reached: the position
is projected onto the circle of radius `inner_radius`, the time is kept. -/
noncomputable def clampEntry (inner_radius : ℝ) (e : Entry) : Entry :=
  ((radialClamp inner_radius e.1 e.2.1).1,
   (radialClamp inner_radius e.1 e.2.1).2, e.2.2)

/-- One full step of `simulate` as a function of the previous recorded
entry: advance first, then evaluate the radial rule against the
post-advance position, clamping when it triggers. -/
noncomputable def stepEntry (velocity_x velocity_y time_step inner_radius : ℝ)
    (e : Entry) : Entry :=
  open Classical in
  if clampGuard inner_radius (advanceEntry velocity_x velocity_y time_step e).1
      (advanceEntry velocity_x velocity_y time_step e).2.1 then
    clampEntry inner_radius (advanceEntry velocity_x velocity_y time_step e)
  else
    advanceEntry velocity_x velocity_y time_step e

/-- The `for _ in range(max_steps)` loop of `simulate` (birthday_station.py
lines 60-76), started from the last recorded entry: each iteration
advances, tests the radial rule on the post-advance position, and either
records the clamped entry and breaks, or records the advanced entry and
continues. -/
noncomputable def simulateLoop
    (velocity_x velocity_y time_step inner_radius : ℝ) :
    ℕ → Entry → List Entry
  | 0, _ => []
  | n + 1, e =>
      open Classical in
      if clampGuard inner_radius
          (advanceEntry velocity_x velocity_y time_step e).1
          (advanceEntry velocity_x velocity_y time_step e).2.1 then
        [clampEntry inner_radius (advanceEntry velocity_x velocity_y time_step e)]
      else
        advanceEntry velocity_x velocity_y time_step e ::
          simulateLoop velocity_x velocity_y time_step inner_radius n
            (advanceEntry velocity_x velocity_y time_step e)

/-- Resolution of the `time_step: float | None = None` parameter
(birthday_station.py lines 45-46): `None` selects
`0.001 * 2.0 * np.pi / angular_speed`. -/
noncomputable def resolveTimeStep (angular_speed : ℝ) (time_step : Option ℝ) :
    ℝ :=
  time_step.getD (0.001 * (2.0 * Real.pi) / angular_speed)

/-- The full list of recorded `(x, y, time)` entries of `simulate`: the
initial state `(0, -inner_radius + release_height, 0)` followed by the
loop records. -/
noncomputable def simEntries (angular_speed inner_radius release_height : ℝ)
    (initial_velocity : ℝ × ℝ) (time_step : Option ℝ) (max_steps : ℕ) :
    List Entry :=
  (0, -inner_radius + release_height, 0) ::
    simulateLoop initial_velocity.1 initial_velocity.2
      (resolveTimeStep angular_speed time_step) inner_radius max_steps
      (0, -inner_radius + release_height, 0)

/-- `rotate_xy` of birthday_station.py (lines 17-31), applied elementwise
to coordinate lists. -/
noncomputable def rotate_xy (x_coordinates y_coordinates angle_radians :
    List ℝ) : List ℝ × List ℝ :=
  ((x_coordinates.zip (y_coordinates.zip angle_radians)).map
      (fun p => Real.cos p.2.2 * p.1 - Real.sin p.2.2 * p.2.1),
   (x_coordinates.zip (y_coordinates.zip angle_radians)).map
      (fun p => Real.sin p.2.2 * p.1 + Real.cos p.2.2 * p.2.1))

/-- The dictionary of arrays returned by `simulate`
(birthday_station.py lines 88-94). -/
structure SimOut where
  time : List ℝ
  x_inertial : List ℝ
  y_inertial : List ℝ
  x_rotating : List ℝ
  y_rotating : List ℝ

/-- Shallow embedding of `simulate` from birthday_station.py
(lines 34-94): ball motion inside a rotating station, with a radial
stop-and-clamp boundary at `inner_radius`. -/
noncomputable def simulate (angular_speed inner_radius release_height : ℝ)
    (initial_velocity : ℝ × ℝ) (time_step : Option ℝ) (max_steps : ℕ) :
    SimOut :=
  let entries := simEntries angular_speed inner_radius release_height
    initial_velocity time_step max_steps
  let times := entries.map (fun e => e.2.2)
  let xs := entries.map (fun e => e.1)
  let ys := entries.map (fun e => e.2.1)
  let rot := rotate_xy xs ys (times.map (fun t => -angular_speed * t))
  { time := times
    x_inertial := xs
    y_inertial := ys
    x_rotating := rot.1
    y_rotating := rot.2 }

/-- The position the ball would occupy after `k` unclamped Euler steps
from the initial state of `simulate`: `(0 + k vx dt, y0 + k vy dt)` with
`y0 = -inner_radius + release_height`. -/
noncomputable def freePos (inner_radius release_height velocity_x velocity_y
    time_step : ℝ) (k : ℕ) : ℝ × ℝ :=
  ((k : ℝ) * (velocity_x * time_step),
   (-inner_radius + release_height) + (k : ℝ) * (velocity_y * time_step))

/-- Junk entry used as the default of list lookups. -/
def junkEntry : Entry := (0, 0, 0)

/-- The entry a map over `List.range` produces for index `k`: the k-th
free Euler successor of `e`. -/
noncomputable def freeEntry (vx vy dt : ℝ) (e : Entry) (k : ℕ) : Entry :=
  (e.1 + ((k : ℝ) + 1) * (vx * dt),
   e.2.1 + ((k : ℝ) + 1) * (vy * dt),
   e.2.2 + ((k : ℝ) + 1) * dt)

end BirthdayStation

namespace HeapModel

/-- A numpy array value: a list of rows. -/
abbrev Arr := List TwoBallsBounce.Vec3

/-- An explicit heap of array objects: `mem` maps an address to the array
object stored there, `next` is the next fresh address.  Numpy arrays are
mutable objects; distinct addresses model distinct storage. -/
structure Heap where
  mem : ℕ → Arr
  next : ℕ

/-- Reading the array object at address `r`. -/
def hread (h : Heap) (r : ℕ) : Arr := h.mem r

/-- Allocating a fresh array object holding value `a` (a `.copy()` call or
the result of an arithmetic expression): returns the new heap and the
fresh address. -/
def halloc (h : Heap) (a : Arr) : Heap × ℕ :=
  (⟨Function.update h.mem h.next a, h.next + 1⟩, h.next)

/-- In-place mutation of the array object at address `r` (`+=`, `*=`). -/
def hwrite (h : Heap) (r : ℕ) (a : Arr) : Heap :=
  ⟨Function.update h.mem r a, h.next⟩

/-- The `while` loop of `simulate_motion` (two_balls_bounce.py lines
51-60) at heap level: each iteration allocates `positions.copy()` into
the output, then mutates the `positions` and `velocities` arrays at
addresses `p` and `v` in place through the per-body wall test and
advance. -/
def bounceHeapLoop (wall_x_position time_step : ℚ) :
    ℕ → Heap → ℕ → ℕ → List ℕ → Heap × List ℕ
  | 0, h, _, _, acc => (h, acc.reverse)
  | n + 1, h, p, v, acc =>
      let h1 := (halloc h (hread h p)).1
      let r := (halloc h (hread h p)).2
      let stepped := ((hread h1 p).zip (hread h1 v)).map
        (TwoBallsBounce.bounceBody wall_x_position time_step)
      let h2 := hwrite (hwrite h1 p (stepped.map Prod.fst)) v
        (stepped.map Prod.snd)
      bounceHeapLoop wall_x_position time_step n h2 p v (r :: acc)

/-- Heap-level embedding of `simulate_motion` from two_balls_bounce.py:
`positions = initial_positions.copy()` and
`velocities = initial_velocities.copy()` allocate fresh arrays, the loop
runs on those, and the result is the list of addresses of the recorded
arrays (`positions_over_time`). -/
def simulate_motion_heap (h : Heap)
    (initial_positions initial_velocities : ℕ)
    (wall_x_position time_step stop_time : ℚ) : Heap × List ℕ :=
  let h1 := (halloc h (hread h initial_positions)).1
  let p := (halloc h (hread h initial_positions)).2
  let h2 := (halloc h1 (hread h1 initial_velocities)).1
  let v := (halloc h1 (hread h1 initial_velocities)).2
  bounceHeapLoop wall_x_position time_step
    (TwoBallsBounce.numSteps time_step stop_time) h2 p v []

/-- The `while` loop of `simulate_motion` from two_balls_cross.py (lines
54-58) at heap level: each iteration allocates `positions.copy()` into
the output, then `positions = positions + velocities * time_step`
allocates a fresh array and rebinds the name; no array is mutated. -/
def crossHeapLoop (time_step : ℚ) :
    ℕ → Heap → ℕ → ℕ → List ℕ → Heap × List ℕ
  | 0, h, _, _, acc => (h, acc.reverse)
  | n + 1, h, p, v, acc =>
      let h1 := (halloc h (hread h p)).1
      let r := (halloc h (hread h p)).2
      let newPositions := ((hread h1 p).zip (hread h1 v)).map
        (fun b => (TwoBallsBounce.advanceBody time_step b).1)
      let h2 := (halloc h1 newPositions).1
      let p2 := (halloc h1 newPositions).2
      crossHeapLoop time_step n h2 p2 v (r :: acc)

/-- Heap-level embedding of `simulate_motion` from two_balls_cross.py
(lines 36-59): linear motion, no boundary. -/
def cross_simulate_motion_heap (h : Heap)
    (initial_positions initial_velocities : ℕ) (time_step stop_time : ℚ) :
    Heap × List ℕ :=
  let h1 := (halloc h (hread h initial_positions)).1
  let p := (halloc h (hread h initial_positions)).2
  let h2 := (halloc h1 (hread h1 initial_velocities)).1
  let v := (halloc h1 (hread h1 initial_velocities)).2
  crossHeapLoop time_step (TwoBallsBounce.numSteps time_step stop_time) h2 p v []

/-- A tiny concrete heap used by witnesses: every address holds the empty
array and addresses 0 and 1 are taken. -/
def testHeap : Heap := ⟨fun _ => [], 2⟩

end HeapModel

namespace TwoBallsBounce

theorem bounceLoop_length (w dt : ℚ) (n : ℕ) (s : List Body) :
    (bounceLoop w dt n s).length = n := by
  induction n generalizing s with
  | zero => rfl
  | succ n ih => simp [bounceLoop, ih]

theorem postLoop_length (w dt : ℚ) (n : ℕ) (s : List Body) :
    (postLoop w dt n s).length = n := by
  induction n generalizing s with
  | zero => rfl
  | succ n ih => simp [postLoop, ih]

theorem bounceLoop_get (w dt : ℚ) (n : ℕ) (s : List Body) (j : ℕ)
    (hj : j < (bounceLoop w dt n s).length) :
    (bounceLoop w dt n s).get ⟨j, hj⟩ =
      ((bounceStep w dt)^[j] s).map Prod.fst := by
  induction n generalizing s j with
  | zero => simp [bounceLoop] at hj
  | succ n ih =>
      cases j with
      | zero => rfl
      | succ j =>
          have hj' : j < (bounceLoop w dt n (bounceStep w dt s)).length := by
            simpa [bounceLoop] using hj
          have := ih (bounceStep w dt s) j hj'
          simpa [bounceLoop, Function.iterate_succ_apply] using this

theorem postLoop_get (w dt : ℚ) (n : ℕ) (s : List Body) (j : ℕ)
    (hj : j < (postLoop w dt n s).length) :
    (postLoop w dt n s).get ⟨j, hj⟩ =
      ((postStep w dt)^[j] s).map Prod.fst := by
  induction n generalizing s j with
  | zero => simp [postLoop] at hj
  | succ n ih =>
      cases j with
      | zero => rfl
      | succ j =>
          have hj' : j < (postLoop w dt n (postStep w dt s)).length := by
            simpa [postLoop] using hj
          have := ih (postStep w dt s) j hj'
          simpa [postLoop, Function.iterate_succ_apply] using this

/-- `checkBody` fixes a body strictly inside the wall. -/
theorem checkBody_of_lt (w : ℚ) (b : Body) (h : b.1.1 < w) :
    checkBody w b = b := by
  simp [checkBody, not_le.mpr h]

/-- Commuting the test past the advance: the spec-order iterate of a
checked body equals the check of the source-order iterate. -/
theorem postBody_iterate_eq (w dt : ℚ) (k : ℕ) (b : Body) :
    (postBody w dt)^[k] (checkBody w b) =
      checkBody w ((bounceBody w dt)^[k] b) := by
  induction k generalizing b with
  | zero => rfl
  | succ k ih =>
      rw [Function.iterate_succ_apply, Function.iterate_succ_apply]
      exact ih (bounceBody w dt b)

/-- The check phase never moves a body, so it is invisible in the recorded
positions. -/
theorem fst_checkBody (w : ℚ) (b : Body) : (checkBody w b).1 = b.1 := by
  by_cases h : w ≤ b.1.1 <;> simp [checkBody, h]

theorem bounceStep_iterate_length (w dt : ℚ) (k : ℕ) (s : List Body) :
    ((bounceStep w dt)^[k] s).length = s.length := by
  induction k generalizing s with
  | zero => rfl
  | succ k ih =>
      rw [Function.iterate_succ_apply]
      simpa [bounceStep] using ih (bounceStep w dt s)

/-- Per-body view of the iterated whole-state step. -/
theorem bounceStep_iterate_getD (w dt : ℚ) (k : ℕ) (s : List Body) (b : ℕ)
    (hb : b < s.length) :
    ((bounceStep w dt)^[k] s).getD b defaultBody =
      (bounceBody w dt)^[k] (s.getD b defaultBody) := by
  induction k generalizing s with
  | zero => rfl
  | succ k ih =>
      rw [Function.iterate_succ_apply, Function.iterate_succ_apply]
      have hb' : b < (bounceStep w dt s).length := by simpa [bounceStep] using hb
      rw [ih (bounceStep w dt s) hb']
      have h1 : (bounceStep w dt s).getD b defaultBody =
          bounceBody w dt (s.getD b defaultBody) := by
        rw [List.getD_eq_getElem _ _ hb', List.getD_eq_getElem _ _ hb]
        simp [bounceStep]
      rw [h1]

/-- Iterating an elementwise map is the elementwise iterate. -/
theorem map_iterate {α : Type} (f : α → α) (k : ℕ) (l : List α) :
    (List.map f)^[k] l = l.map f^[k] := by
  induction k generalizing l with
  | zero => simp
  | succ k ih =>
      rw [Function.iterate_succ_apply, ih, List.map_map,
        ← Function.iterate_succ]

/-- Every recorded array of `simulate_motion` has one row per body. -/
theorem simulate_motion_record_length (ip iv : List Vec3) (w dt stop : ℚ)
    (rec : List Vec3) (hrec : rec ∈ simulate_motion ip iv w dt stop) :
    rec.length = (ip.zip iv).length := by
  rw [simulate_motion] at hrec
  obtain ⟨⟨j, hj⟩, hget⟩ := List.mem_iff_get.mp hrec
  rw [bounceLoop_get] at hget
  rw [← hget, List.length_map, bounceStep_iterate_length]

end TwoBallsBounce

namespace BirthdayStation

theorem hypot_nonneg (x y : ℝ) : 0 ≤ hypot x y := Real.sqrt_nonneg _

theorem hypot_sq (x y : ℝ) : hypot x y ^ 2 = x ^ 2 + y ^ 2 :=
  Real.sq_sqrt (by positivity)

theorem hypot_zero_left (y : ℝ) : hypot 0 y = |y| := by
  simp [hypot, Real.sqrt_sq_eq_abs]

/-- The clamped position lies exactly on the boundary circle. -/
theorem hypot_radialClamp (R x y : ℝ) (hR : 0 < R) (h : R ≤ hypot x y) :
    hypot (radialClamp R x y).1 (radialClamp R x y).2 = R := by
  have hr : 0 < hypot x y := lt_of_lt_of_le hR h
  have hsq : hypot x y ^ 2 = x ^ 2 + y ^ 2 := hypot_sq x y
  have harg : (radialClamp R x y).1 ^ 2 + (radialClamp R x y).2 ^ 2 = R ^ 2 := by
    simp only [radialClamp]
    field_simp
    nlinarith [hsq]
  rw [hypot, harg, Real.sqrt_sq hR.le]

/-- Times recorded by the loop grow by exactly one `time_step` per entry,
clamped or not. -/
theorem simulateLoop_time (vx vy dt R : ℝ) :
    ∀ (n : ℕ) (e : Entry) (j : ℕ),
      j < (simulateLoop vx vy dt R n e).length →
      ((simulateLoop vx vy dt R n e).getD j junkEntry).2.2 =
        e.2.2 + ((j : ℝ) + 1) * dt := by
  intro n
  induction n with
  | zero => intro e j hj; simp [simulateLoop] at hj
  | succ n ih =>
      intro e j hj
      by_cases hg : clampGuard R (advanceEntry vx vy dt e).1
          (advanceEntry vx vy dt e).2.1
      · simp only [simulateLoop, if_pos hg] at hj ⊢
        simp only [List.length_singleton] at hj
        have hj0 : j = 0 := by omega
        subst hj0
        simp [clampEntry, advanceEntry]
      · simp only [simulateLoop, if_neg hg] at hj ⊢
        cases j with
        | zero => simp [advanceEntry]
        | succ j =>
            have hj' : j <
                (simulateLoop vx vy dt R n (advanceEntry vx vy dt e)).length := by
              simpa using hj
            have := ih (advanceEntry vx vy dt e) j hj'
            rw [List.getD_cons_succ, this]
            simp only [advanceEntry]
            push_cast
            ring

/-- Shifting the base entry of `freeEntry` by one Euler advance. -/
theorem freeEntry_advance (vx vy dt : ℝ) (e : Entry) (k : ℕ) :
    freeEntry vx vy dt (advanceEntry vx vy dt e) k =
      freeEntry vx vy dt e (k + 1) := by
  simp only [freeEntry, advanceEntry, Prod.mk.injEq]
  push_cast
  refine ⟨by ring, by ring, by ring⟩

/-- If no unclamped step within the fuel reaches the boundary, the loop
records exactly the free Euler positions. -/
theorem simulateLoop_no_cross (vx vy dt R : ℝ) :
    ∀ (n : ℕ) (e : Entry),
      (∀ k : ℕ, 1 ≤ k → k ≤ n →
        hypot (e.1 + (k : ℝ) * (vx * dt)) (e.2.1 + (k : ℝ) * (vy * dt)) < R) →
      simulateLoop vx vy dt R n e =
        (List.range n).map (freeEntry vx vy dt e) := by
  intro n
  induction n with
  | zero => intro e _; simp [simulateLoop]
  | succ n ih =>
      intro e h
      have h1 := h 1 le_rfl (by omega)
      have hin : hypot (advanceEntry vx vy dt e).1
          (advanceEntry vx vy dt e).2.1 < R := by
        simpa [advanceEntry] using h1
      rw [simulateLoop, if_neg (by simpa [clampGuard] using not_le.mpr hin)]
      rw [List.range_succ_eq_map, List.map_cons, List.map_map]
      congr 1
      · simp [freeEntry, advanceEntry]
      · rw [ih (advanceEntry vx vy dt e) ?_]
        · apply List.map_congr_left
          intro k _
          simp only [Function.comp_apply]
          rw [freeEntry_advance]
        · intro k hk1 hkn
          have := h (k + 1) (by omega) (by omega)
          have hx : e.1 + ((k : ℕ) + 1 : ℝ) * (vx * dt) =
              (advanceEntry vx vy dt e).1 + (k : ℝ) * (vx * dt) := by
            simp only [advanceEntry]; ring
          have hy : e.2.1 + ((k : ℕ) + 1 : ℝ) * (vy * dt) =
              (advanceEntry vx vy dt e).2.1 + (k : ℝ) * (vy * dt) := by
            simp only [advanceEntry]; ring
          rw [← hx, ← hy]
          simpa using this

/-- If the free Euler position first reaches the boundary at step `i + 1`
(within the fuel), the loop records the `i` free positions before it and
then the clamped entry, and stops. -/
theorem simulateLoop_first_cross (vx vy dt R : ℝ) :
    ∀ (n i : ℕ) (e : Entry),
      i + 1 ≤ n →
      (∀ k : ℕ, 1 ≤ k → k ≤ i →
        hypot (e.1 + (k : ℝ) * (vx * dt)) (e.2.1 + (k : ℝ) * (vy * dt)) < R) →
      R ≤ hypot (e.1 + ((i : ℝ) + 1) * (vx * dt))
            (e.2.1 + ((i : ℝ) + 1) * (vy * dt)) →
      simulateLoop vx vy dt R n e =
        ((List.range i).map (freeEntry vx vy dt e)) ++
          [clampEntry R (freeEntry vx vy dt e i)] := by
  intro n
  induction n with
  | zero => intro i e hi _ _; omega
  | succ n ih =>
      intro i e hi hmin hcross
      cases i with
      | zero =>
          have hg : clampGuard R (advanceEntry vx vy dt e).1
              (advanceEntry vx vy dt e).2.1 := by
            simp only [clampGuard, advanceEntry]
            simpa using hcross
          rw [simulateLoop, if_pos hg]
          simp only [List.range_zero, List.map_nil, List.nil_append,
            List.cons.injEq, and_true]
          congr 1
          simp only [freeEntry, advanceEntry, Prod.mk.injEq]
          norm_num
      | succ i =>
          have h1 := hmin 1 le_rfl (by omega)
          have hin : hypot (advanceEntry vx vy dt e).1
              (advanceEntry vx vy dt e).2.1 < R := by
            simpa [advanceEntry] using h1
          rw [simulateLoop, if_neg (by simpa [clampGuard] using not_le.mpr hin)]
          rw [List.range_succ_eq_map, List.map_cons, List.map_map,
            List.cons_append]
          congr 1
          · simp [freeEntry, advanceEntry]
          · rw [ih i (advanceEntry vx vy dt e) (by omega) ?_ ?_]
            · congr 1
              · apply List.map_congr_left
                intro k _
                simp only [Function.comp_apply]
                rw [freeEntry_advance]
              · rw [freeEntry_advance]
            · intro k hk1 hki
              have := hmin (k + 1) (by omega) (by omega)
              have hx : e.1 + ((k : ℕ) + 1 : ℝ) * (vx * dt) =
                  (advanceEntry vx vy dt e).1 + (k : ℝ) * (vx * dt) := by
                simp only [advanceEntry]; ring
              have hy : e.2.1 + ((k : ℕ) + 1 : ℝ) * (vy * dt) =
                  (advanceEntry vx vy dt e).2.1 + (k : ℝ) * (vy * dt) := by
                simp only [advanceEntry]; ring
              rw [← hx, ← hy]
              simpa using this
            · have hx : (advanceEntry vx vy dt e).1 + ((i : ℝ) + 1) * (vx * dt) =
                  e.1 + (((i : ℕ) + 1 : ℝ) + 1) * (vx * dt) := by
                simp only [advanceEntry]; ring
              have hy : (advanceEntry vx vy dt e).2.1 + ((i : ℝ) + 1) * (vy * dt) =
                  e.2.1 + (((i : ℕ) + 1 : ℝ) + 1) * (vy * dt) := by
                simp only [advanceEntry]; ring
              rw [hx, hy]
              push_cast at hcross ⊢
              exact hcross

/-- Every recorded entry after the first is obtained from its predecessor
by advancing first and then evaluating the radial rule against the
post-advance position. -/
theorem simulateLoop_chain (vx vy dt R : ℝ) :
    ∀ (n : ℕ) (e : Entry) (j : ℕ),
      j + 1 < (e :: simulateLoop vx vy dt R n e).length →
      (e :: simulateLoop vx vy dt R n e).getD (j + 1) junkEntry =
        stepEntry vx vy dt R
          ((e :: simulateLoop vx vy dt R n e).getD j junkEntry) := by
  intro n
  induction n with
  | zero =>
      intro e j hj
      simp only [simulateLoop, List.length_cons, List.length_nil] at hj
      omega
  | succ n ih =>
      intro e j hj
      by_cases hg : clampGuard R (advanceEntry vx vy dt e).1
          (advanceEntry vx vy dt e).2.1
      · simp only [simulateLoop, if_pos hg] at hj ⊢
        simp only [List.length_cons, List.length_nil] at hj
        have hj0 : j = 0 := by omega
        subst hj0
        simp [stepEntry, if_pos hg]
      · simp only [simulateLoop, if_neg hg] at hj ⊢
        cases j with
        | zero => simp [stepEntry, if_neg hg]
        | succ j =>
            have hj' : j + 1 <
                (advanceEntry vx vy dt e ::
                  simulateLoop vx vy dt R n (advanceEntry vx vy dt e)).length := by
              simpa using hj
            have := ih (advanceEntry vx vy dt e) j hj'
            simpa using this

/-- Recorded times of `simEntries` lie on the grid `index * time_step`. -/
theorem simEntries_time (ω R h : ℝ) (v : ℝ × ℝ) (ts : Option ℝ) (N j : ℕ)
    (hj : j < (simEntries ω R h v ts N).length) :
    ((simEntries ω R h v ts N).getD j junkEntry).2.2 =
      (j : ℝ) * resolveTimeStep ω ts := by
  cases j with
  | zero => simp [simEntries]
  | succ j =>
      rw [simEntries, List.getD_cons_succ]
      have hj' : j < (simulateLoop v.1 v.2 (resolveTimeStep ω ts) R N
          ((0 : ℝ), -R + h, 0)).length := by
        rw [simEntries] at hj
        simpa using hj
      rw [simulateLoop_time _ _ _ _ N _ j hj']
      push_cast
      ring

/-- Looking up a mapped range list. -/
theorem getD_range_map {α : Type} (f : ℕ → α) (n j : ℕ) (d : α)
    (hj : j < n) :
    ((List.range n).map f).getD j d = f j := by
  have hlen : j < ((List.range n).map f).length := by simpa using hj
  rw [List.getD_eq_getElem _ _ hlen]
  simp

/-- The entry list of `simulate` when no step within `max_steps` reaches
the boundary. -/
theorem simEntries_eq_of_no_cross (ω R h : ℝ) (v : ℝ × ℝ) (ts : Option ℝ)
    (N : ℕ)
    (hall : ∀ k : ℕ, 1 ≤ k → k ≤ N →
      hypot (freePos R h v.1 v.2 (resolveTimeStep ω ts) k).1
        (freePos R h v.1 v.2 (resolveTimeStep ω ts) k).2 < R) :
    simEntries ω R h v ts N =
      ((0 : ℝ), -R + h, 0) ::
        (List.range N).map
          (freeEntry v.1 v.2 (resolveTimeStep ω ts) ((0 : ℝ), -R + h, 0)) := by
  rw [simEntries]
  congr 1
  apply simulateLoop_no_cross
  intro k hk1 hk2
  simpa [freePos] using hall k hk1 hk2

/-- The entry list of `simulate` when the free position first reaches the
boundary at step `i + 1 ≤ max_steps`: the free entries, then the single
clamped entry, and nothing afterwards. -/
theorem simEntries_eq_of_first_cross (ω R h : ℝ) (v : ℝ × ℝ) (ts : Option ℝ)
    (N i : ℕ) (hi : i + 1 ≤ N)
    (hmin : ∀ k : ℕ, 1 ≤ k → k ≤ i →
      hypot (freePos R h v.1 v.2 (resolveTimeStep ω ts) k).1
        (freePos R h v.1 v.2 (resolveTimeStep ω ts) k).2 < R)
    (hcr : R ≤ hypot
        (freePos R h v.1 v.2 (resolveTimeStep ω ts) (i + 1)).1
        (freePos R h v.1 v.2 (resolveTimeStep ω ts) (i + 1)).2) :
    simEntries ω R h v ts N =
      ((0 : ℝ), -R + h, 0) ::
        (((List.range i).map
          (freeEntry v.1 v.2 (resolveTimeStep ω ts) ((0 : ℝ), -R + h, 0))) ++
          [clampEntry R
            (freeEntry v.1 v.2 (resolveTimeStep ω ts) ((0 : ℝ), -R + h, 0) i)]) := by
  rw [simEntries]
  congr 1
  apply simulateLoop_first_cross _ _ _ _ N i _ hi
  · intro k hk1 hk2
    simpa [freePos] using hmin k hk1 hk2
  · have := hcr
    simp only [freePos] at this
    push_cast at this
    simpa using this

/-- The x-coordinate of the k-th free entry from the initial state agrees
with `freePos (k + 1)`. -/
theorem freeEntry_init_x (R h vx vy dt : ℝ) (k : ℕ) :
    (freeEntry vx vy dt ((0 : ℝ), -R + h, 0) k).1 =
      (freePos R h vx vy dt (k + 1)).1 := by
  simp only [freeEntry, freePos]
  push_cast
  ring

/-- The y-coordinate of the k-th free entry from the initial state agrees
with `freePos (k + 1)`. -/
theorem freeEntry_init_y (R h vx vy dt : ℝ) (k : ℕ) :
    (freeEntry vx vy dt ((0 : ℝ), -R + h, 0) k).2.1 =
      (freePos R h vx vy dt (k + 1)).2 := by
  simp only [freeEntry, freePos]
  push_cast
  ring

theorem simulate_time_def (ω R h : ℝ) (v : ℝ × ℝ) (ts : Option ℝ) (N : ℕ) :
    (simulate ω R h v ts N).time =
      (simEntries ω R h v ts N).map (fun e => e.2.2) := rfl

theorem simulate_x_def (ω R h : ℝ) (v : ℝ × ℝ) (ts : Option ℝ) (N : ℕ) :
    (simulate ω R h v ts N).x_inertial =
      (simEntries ω R h v ts N).map (fun e => e.1) := rfl

theorem simulate_y_def (ω R h : ℝ) (v : ℝ × ℝ) (ts : Option ℝ) (N : ℕ) :
    (simulate ω R h v ts N).y_inertial =
      (simEntries ω R h v ts N).map (fun e => e.2.1) := rfl

/-- Time lookup in the output dictionary of `simulate`. -/
theorem simulate_time_getD (ω R h : ℝ) (v : ℝ × ℝ) (ts : Option ℝ) (N j : ℕ)
    (hj : j < (simEntries ω R h v ts N).length) :
    (simulate ω R h v ts N).time.getD j 0 =
      (j : ℝ) * resolveTimeStep ω ts := by
  rw [simulate_time_def]
  have hj' : j < ((simEntries ω R h v ts N).map (fun e => e.2.2)).length := by
    simpa using hj
  rw [List.getD_eq_getElem _ _ hj', List.getElem_map,
    ← List.getD_eq_getElem (simEntries ω R h v ts N) junkEntry hj]
  exact simEntries_time ω R h v ts N j hj

/-- Position lookup in the output dictionary of `simulate`. -/
theorem simulate_pos_getD (ω R h : ℝ) (v : ℝ × ℝ) (ts : Option ℝ) (N j : ℕ)
    (hj : j < (simEntries ω R h v ts N).length) :
    (simulate ω R h v ts N).x_inertial.getD j 0 =
        ((simEntries ω R h v ts N).getD j junkEntry).1 ∧
      (simulate ω R h v ts N).y_inertial.getD j 0 =
        ((simEntries ω R h v ts N).getD j junkEntry).2.1 := by
  rw [simulate_x_def, simulate_y_def]
  have hjx : j < ((simEntries ω R h v ts N).map (fun e => e.1)).length := by
    simpa using hj
  have hjy : j < ((simEntries ω R h v ts N).map (fun e => e.2.1)).length := by
    simpa using hj
  rw [List.getD_eq_getElem _ _ hjx, List.getElem_map,
    List.getD_eq_getElem _ _ hjy, List.getElem_map,
    ← List.getD_eq_getElem (simEntries ω R h v ts N) junkEntry hj]
  exact ⟨rfl, rfl⟩

end BirthdayStation

namespace HeapModel

theorem hread_halloc_of_lt (h : Heap) (a : Arr) (j : ℕ) (hj : j < h.next) :
    hread (halloc h a).1 j = hread h j := by
  simp only [hread, halloc]
  exact Function.update_noteq (by omega) _ _

theorem next_halloc (h : Heap) (a : Arr) : (halloc h a).1.next = h.next + 1 :=
  rfl

theorem hread_hwrite_of_ne (h : Heap) (r : ℕ) (a : Arr) (j : ℕ) (hj : j ≠ r) :
    hread (hwrite h r a) j = hread h j := by
  simp only [hread, hwrite]
  exact Function.update_noteq hj _ _

theorem next_hwrite (h : Heap) (r : ℕ) (a : Arr) : (hwrite h r a).next = h.next :=
  rfl

/-- Frame property of the bounce loop: old addresses other than the two
working arrays are untouched, the allocation counter only grows, and
every recorded address is either carried in from the accumulator or
freshly allocated. -/
theorem bounceHeapLoop_frame (w dt : ℚ) :
    ∀ (n : ℕ) (h : Heap) (p v : ℕ) (acc : List ℕ),
      p < h.next → v < h.next →
      h.next ≤ (bounceHeapLoop w dt n h p v acc).1.next ∧
      (∀ j, j < h.next → j ≠ p → j ≠ v →
        hread (bounceHeapLoop w dt n h p v acc).1 j = hread h j) ∧
      (∀ r ∈ (bounceHeapLoop w dt n h p v acc).2, r ∈ acc ∨ h.next ≤ r) := by
  intro n
  induction n with
  | zero =>
      intro h p v acc _ _
      refine ⟨le_rfl, fun j _ _ _ => rfl, fun r hr => ?_⟩
      simp only [bounceHeapLoop, List.mem_reverse] at hr
      exact Or.inl hr
  | succ n ih =>
      intro h p v acc hp hv
      simp only [bounceHeapLoop]
      set h1 := (halloc h (hread h p)).1 with hh1
      set stepped := ((hread h1 p).zip (hread h1 v)).map
        (TwoBallsBounce.bounceBody w dt) with hstepped
      set h2 := hwrite (hwrite h1 p (stepped.map Prod.fst)) v
        (stepped.map Prod.snd) with hh2
      have hnext2 : h2.next = h.next + 1 := rfl
      have hp2 : p < h2.next := by omega
      have hv2 : v < h2.next := by omega
      obtain ⟨hmono, hframe, hout⟩ :=
        ih h2 p v ((halloc h (hread h p)).2 :: acc) hp2 hv2
      refine ⟨by omega, ?_, ?_⟩
      · intro j hj hjp hjv
        rw [hframe j (by omega) hjp hjv]
        rw [hh2, hread_hwrite_of_ne _ _ _ _ hjv, hread_hwrite_of_ne _ _ _ _ hjp]
        exact hread_halloc_of_lt _ _ _ hj
      · intro r hr
        rcases hout r hr with hacc | hge
        · rcases List.mem_cons.mp hacc with hhead | htail
          · right
            have : (halloc h (hread h p)).2 = h.next := rfl
            omega
          · exact Or.inl htail
        · right; omega

/-- Frame property of the cross loop: it only allocates, so every old
address is untouched, and every recorded address is from the accumulator
or fresh. -/
theorem crossHeapLoop_frame (dt : ℚ) :
    ∀ (n : ℕ) (h : Heap) (p v : ℕ) (acc : List ℕ),
      h.next ≤ (crossHeapLoop dt n h p v acc).1.next ∧
      (∀ j, j < h.next →
        hread (crossHeapLoop dt n h p v acc).1 j = hread h j) ∧
      (∀ r ∈ (crossHeapLoop dt n h p v acc).2, r ∈ acc ∨ h.next ≤ r) := by
  intro n
  induction n with
  | zero =>
      intro h p v acc
      refine ⟨le_rfl, fun j _ => rfl, fun r hr => ?_⟩
      simp only [crossHeapLoop, List.mem_reverse] at hr
      exact Or.inl hr
  | succ n ih =>
      intro h p v acc
      simp only [crossHeapLoop]
      set h1 := (halloc h (hread h p)).1 with hh1
      set newPositions := ((hread h1 p).zip (hread h1 v)).map
        (fun b => (TwoBallsBounce.advanceBody dt b).1) with hnew
      set h2 := (halloc h1 newPositions).1 with hh2
      have hnext2 : h2.next = h.next + 2 := rfl
      obtain ⟨hmono, hframe, hout⟩ :=
        ih h2 (halloc h1 newPositions).2 v ((halloc h (hread h p)).2 :: acc)
      refine ⟨by omega, ?_, ?_⟩
      · intro j hj
        rw [hframe j (by omega)]
        rw [hh2, hread_halloc_of_lt _ _ _ (by simp [hh1, next_halloc]; omega)]
        exact hread_halloc_of_lt _ _ _ hj
      · intro r hr
        rcases hout r hr with hacc | hge
        · rcases List.mem_cons.mp hacc with hhead | htail
          · right
            have : (halloc h (hread h p)).2 = h.next := rfl
            omega
          · exact Or.inl htail
        · right; omega

/-- The two prologue allocations of the bounce simulation unfolded: the
working arrays live at the fresh addresses `h0.next` and `h0.next + 1`. -/
theorem simulate_motion_heap_eq (h0 : Heap) (ip iv : ℕ)
    (w dt stop : ℚ) :
    simulate_motion_heap h0 ip iv w dt stop =
      bounceHeapLoop w dt (TwoBallsBounce.numSteps dt stop)
        (halloc (halloc h0 (hread h0 ip)).1
          (hread (halloc h0 (hread h0 ip)).1 iv)).1
        h0.next (h0.next + 1) [] := rfl

/-- The two prologue allocations of the cross simulation unfolded. -/
theorem cross_simulate_motion_heap_eq (h0 : Heap) (ip iv : ℕ)
    (dt stop : ℚ) :
    cross_simulate_motion_heap h0 ip iv dt stop =
      crossHeapLoop dt (TwoBallsBounce.numSteps dt stop)
        (halloc (halloc h0 (hread h0 ip)).1
          (hread (halloc h0 (hread h0 ip)).1 iv)).1
        h0.next (h0.next + 1) [] := rfl

end HeapModel

namespace BirthdayStation

/-- The release point of the default scenario, `(0, -10 + 2)`, lies
strictly inside the boundary circle of radius 10. -/
theorem init_inside_ten_two : hypot 0 (-10 + 2 : ℝ) < 10 := by
  rw [hypot_zero_left, show (-10 + 2 : ℝ) = -8 by norm_num, abs_neg,
    abs_of_nonneg (by norm_num : (0 : ℝ) ≤ 8)]
  norm_num

/-- Entry list for scenario A (zero velocity, radius 10, release height
2): the ball never moves, so no step reaches the boundary and the loop
runs its full `max_steps` budget. -/
theorem scenarioA_simEntries :
    simEntries 1 10 2 (0, 0) (some (1 / 100)) 20000 =
      ((0 : ℝ), -10 + 2, 0) ::
        (List.range 20000).map
          (freeEntry 0 0 (resolveTimeStep 1 (some (1 / 100)))
            ((0 : ℝ), -10 + 2, 0)) := by
  apply simEntries_eq_of_no_cross
  intro k _ _
  have hx : (freePos 10 2 ((0 : ℝ), (0 : ℝ)).1 ((0 : ℝ), (0 : ℝ)).2
      (resolveTimeStep 1 (some (1 / 100))) k).1 = 0 := by
    simp [freePos]
  have hy : (freePos 10 2 ((0 : ℝ), (0 : ℝ)).1 ((0 : ℝ), (0 : ℝ)).2
      (resolveTimeStep 1 (some (1 / 100))) k).2 = -10 + 2 := by
    simp [freePos]
  rw [hx, hy]
  exact init_inside_ten_two

/-- Entry list of a run with `time_step = 0` starting strictly inside the
boundary: the state never changes, so the loop runs its full budget and
every recorded entry equals the initial one. -/
theorem zero_dt_simEntries (ω R h vx vy : ℝ) (N : ℕ)
    (hin : hypot 0 (-R + h) < R) :
    simEntries ω R h (vx, vy) (some 0) N =
      ((0 : ℝ), -R + h, 0) ::
        (List.range N).map
          (freeEntry vx vy (resolveTimeStep ω (some 0))
            ((0 : ℝ), -R + h, 0)) := by
  apply simEntries_eq_of_no_cross
  intro k _ _
  have hdt : resolveTimeStep ω (some 0) = 0 := by simp [resolveTimeStep]
  have hx : (freePos R h ((vx : ℝ), (vy : ℝ)).1 ((vx : ℝ), (vy : ℝ)).2
      (resolveTimeStep ω (some 0)) k).1 = 0 := by
    simp [freePos, hdt]
  have hy : (freePos R h ((vx : ℝ), (vy : ℝ)).1 ((vx : ℝ), (vy : ℝ)).2
      (resolveTimeStep ω (some 0)) k).2 = -R + h := by
    simp [freePos, hdt]
  rw [hx, hy]
  exact hin

end BirthdayStation

section Claims

/-- C7: the simulators are deterministic — two calls of `simulate` and of
`simulate_motion` with identical inputs return identical trajectories.
Both embeddings are pure functions of their arguments, faithfully so: the
source functions read no clock, random source, or global mutable state,
so the recorded positions, velocities and times agree at every index. -/
theorem simulate_deterministic (angular_speed inner_radius release_height : ℝ)
    (v : ℝ × ℝ) (time_step : Option ℝ) (max_steps : ℕ)
    (initial_positions initial_velocities : List TwoBallsBounce.Vec3)
    (wall_x_position time_step2 stop_time : ℚ) :
    BirthdayStation.simulate angular_speed inner_radius release_height v
        time_step max_steps =
      BirthdayStation.simulate angular_speed inner_radius release_height v
        time_step max_steps ∧
    TwoBallsBounce.simulate_motion initial_positions initial_velocities
        wall_x_position time_step2 stop_time =
      TwoBallsBounce.simulate_motion initial_positions initial_velocities
        wall_x_position time_step2 stop_time :=
  ⟨rfl, rfl⟩

/-- C8: the radial clamp divides by `norm(position)` only in states where
that norm is positive: whenever the clamp guard `radius >= inner_radius`
holds and `inner_radius > 0`, the divisor `hypot x y` is positive, and the
clamped position lands exactly on the boundary circle.  (The code has no
DegenerateState error; the guard together with the positive radius is
what makes the zero-divisor state unreachable.) -/
theorem radial_clamp_guard_positive_norm (inner_radius x y : ℝ)
    (hR : 0 < inner_radius)
    (hg : BirthdayStation.clampGuard inner_radius x y) :
    0 < BirthdayStation.hypot x y ∧
      BirthdayStation.hypot (BirthdayStation.radialClamp inner_radius x y).1
        (BirthdayStation.radialClamp inner_radius x y).2 = inner_radius :=
  ⟨lt_of_lt_of_le hR hg,
    BirthdayStation.hypot_radialClamp inner_radius x y hR hg⟩

/-- Witness for C8 at `inner_radius = 10`, position `(0, -12)`. -/
theorem radial_clamp_guard_positive_norm_witness :
    ((0 : ℝ) < 10 ∧ BirthdayStation.clampGuard 10 0 (-12)) ∧
    (0 < BirthdayStation.hypot 0 (-12) ∧
      BirthdayStation.hypot (BirthdayStation.radialClamp 10 0 (-12)).1
        (BirthdayStation.radialClamp 10 0 (-12)).2 = 10) := by
  have hg : BirthdayStation.clampGuard 10 0 (-12) := by
    simp only [BirthdayStation.clampGuard, BirthdayStation.hypot_zero_left]
    norm_num
  exact ⟨⟨by norm_num, hg⟩,
    radial_clamp_guard_positive_norm 10 0 (-12) (by norm_num) hg⟩

/-- C2: for every run of `simulate` with a positive (resolved) time step,
the recorded time of the i-th trajectory entry is exactly
`i * time_step`, and the times strictly increase across the sequence. -/
theorem simulate_time_grid (angular_speed inner_radius release_height : ℝ)
    (v : ℝ × ℝ) (time_step : Option ℝ) (max_steps : ℕ)
    (hdt : 0 < BirthdayStation.resolveTimeStep angular_speed time_step) :
    (∀ j, j < (BirthdayStation.simulate angular_speed inner_radius
        release_height v time_step max_steps).time.length →
      (BirthdayStation.simulate angular_speed inner_radius release_height v
        time_step max_steps).time.getD j 0 =
        (j : ℝ) * BirthdayStation.resolveTimeStep angular_speed time_step) ∧
    List.Pairwise (fun a b => a < b)
      (BirthdayStation.simulate angular_speed inner_radius release_height v
        time_step max_steps).time := by
  have hlen : (BirthdayStation.simulate angular_speed inner_radius
      release_height v time_step max_steps).time.length =
      (BirthdayStation.simEntries angular_speed inner_radius release_height v
        time_step max_steps).length := by
    rw [BirthdayStation.simulate_time_def, List.length_map]
  constructor
  · intro j hj
    exact BirthdayStation.simulate_time_getD angular_speed inner_radius
      release_height v time_step max_steps j (hlen ▸ hj)
  · rw [List.pairwise_iff_get]
    intro i j hij
    have hi : (i : ℕ) < (BirthdayStation.simEntries angular_speed inner_radius
        release_height v time_step max_steps).length := hlen ▸ i.isLt
    have hj : (j : ℕ) < (BirthdayStation.simEntries angular_speed inner_radius
        release_height v time_step max_steps).length := hlen ▸ j.isLt
    have hgi := BirthdayStation.simulate_time_getD angular_speed inner_radius
      release_height v time_step max_steps i hi
    have hgj := BirthdayStation.simulate_time_getD angular_speed inner_radius
      release_height v time_step max_steps j hj
    rw [List.getD_eq_getElem _ _ (by exact i.isLt)] at hgi
    rw [List.getD_eq_getElem _ _ (by exact j.isLt)] at hgj
    rw [List.get_eq_getElem, List.get_eq_getElem, hgi, hgj]
    have hij' : ((i : ℕ) : ℝ) < ((j : ℕ) : ℝ) := by exact_mod_cast hij
    exact mul_lt_mul_of_pos_right hij' hdt

/-- Witness for C2 with `time_step = some 1`. -/
theorem simulate_time_grid_witness :
    (0 : ℝ) < BirthdayStation.resolveTimeStep 1 (some 1) ∧
    ((∀ j, j < (BirthdayStation.simulate 1 10 2 (0, 0) (some 1) 5).time.length →
      (BirthdayStation.simulate 1 10 2 (0, 0) (some 1) 5).time.getD j 0 =
        (j : ℝ) * BirthdayStation.resolveTimeStep 1 (some 1)) ∧
    List.Pairwise (fun a b => a < b)
      (BirthdayStation.simulate 1 10 2 (0, 0) (some 1) 5).time) := by
  have hdt : (0 : ℝ) < BirthdayStation.resolveTimeStep 1 (some 1) := by
    simp [BirthdayStation.resolveTimeStep]
  exact ⟨hdt, simulate_time_grid 1 10 2 (0, 0) (some 1) 5 hdt⟩

/-- C6 counterexample: in scenario A (body at `(0, -8)`, zero velocity,
radius 10, `time_step = 0.01`, `max_steps = 20000`) the returned
trajectory does NOT have length equal to the configured maximum step
count: the initial state is recorded in addition to the `max_steps` loop
records, so the length is 20001. -/
theorem scenario_a_length_counterexample :
    (BirthdayStation.simulate 1 10 2 (0, 0) (some (1 / 100)) 20000).time.length ≠
      20000 := by
  rw [BirthdayStation.simulate_time_def, List.length_map,
    BirthdayStation.scenarioA_simEntries]
  simp

/-- C6 amended: in scenario A the body never reaches the boundary and
every recorded position equals `(0, -8)`, but the trajectory has
`max_steps + 1 = 20001` entries (the initial state plus one per step),
not `max_steps`. -/
theorem scenario_a_trajectory :
    (BirthdayStation.simulate 1 10 2 (0, 0) (some (1 / 100)) 20000).time.length =
        20001 ∧
    (∀ x ∈ (BirthdayStation.simulate 1 10 2 (0, 0) (some (1 / 100))
        20000).x_inertial, x = 0) ∧
    (∀ y ∈ (BirthdayStation.simulate 1 10 2 (0, 0) (some (1 / 100))
        20000).y_inertial, y = -8) := by
  refine ⟨?_, ?_, ?_⟩
  · rw [BirthdayStation.simulate_time_def, List.length_map,
      BirthdayStation.scenarioA_simEntries]
    simp
  · intro x hx
    rw [BirthdayStation.simulate_x_def, BirthdayStation.scenarioA_simEntries]
      at hx
    simp only [List.map_cons, List.map_map, List.mem_cons, List.mem_map]
      at hx
    rcases hx with h0 | ⟨k, _, hk⟩
    · exact h0
    · rw [← hk]
      simp [BirthdayStation.freeEntry]
  · intro y hy
    rw [BirthdayStation.simulate_y_def, BirthdayStation.scenarioA_simEntries]
      at hy
    simp only [List.map_cons, List.map_map, List.mem_cons, List.mem_map]
      at hy
    rcases hy with h0 | ⟨k, _, hk⟩
    · rw [h0]; norm_num
    · rw [← hk]
      simp [BirthdayStation.freeEntry]
      norm_num

/-- C3 counterexample: calling `simulate` with `time_step = 0` raises no
error and records plenty of state — the returned trajectory has 20001
entries, refuting the claim that no trajectory entry is ever produced for
a non-positive time step. -/
theorem simulate_zero_time_step_counterexample :
    (BirthdayStation.simulate 1 10 2 (0, 0) (some 0) 20000).time.length =
        20001 ∧
    (BirthdayStation.simulate 1 10 2 (0, 0) (some 0) 20000).time ≠ [] := by
  have he := BirthdayStation.zero_dt_simEntries 1 10 2 0 0 20000
    BirthdayStation.init_inside_ten_two
  constructor
  · rw [BirthdayStation.simulate_time_def, List.length_map, he]
    simp
  · rw [BirthdayStation.simulate_time_def, he]
    simp

/-- C3 amended: the code performs no `time_step` validation and defines
no InvalidInput error.  A call of `simulate` with `time_step = 0` (from a
release point strictly inside the boundary) silently returns a full
trajectory of `max_steps + 1` entries, all equal to the initial state at
time 0.  (The `simulate_motion` loop with `time_step = 0` and
`stop_time ≥ 0` does not even terminate; its embedding `numSteps` treats
that case as out of scope.) -/
theorem simulate_zero_time_step_no_error (ω R h vx vy : ℝ) (N : ℕ)
    (hin : BirthdayStation.hypot 0 (-R + h) < R) :
    (BirthdayStation.simulate ω R h (vx, vy) (some 0) N).time.length = N + 1 ∧
    (∀ t ∈ (BirthdayStation.simulate ω R h (vx, vy) (some 0) N).time,
      t = 0) ∧
    (∀ x ∈ (BirthdayStation.simulate ω R h (vx, vy) (some 0) N).x_inertial,
      x = 0) ∧
    (∀ y ∈ (BirthdayStation.simulate ω R h (vx, vy) (some 0) N).y_inertial,
      y = -R + h) := by
  have he := BirthdayStation.zero_dt_simEntries ω R h vx vy N hin
  have hdt : BirthdayStation.resolveTimeStep ω (some 0) = 0 := by
    simp [BirthdayStation.resolveTimeStep]
  refine ⟨?_, ?_, ?_, ?_⟩
  · rw [BirthdayStation.simulate_time_def, List.length_map, he]
    simp
  · intro t ht
    rw [BirthdayStation.simulate_time_def, he] at ht
    simp only [List.map_cons, List.map_map, List.mem_cons, List.mem_map] at ht
    rcases ht with h0 | ⟨k, _, hk⟩
    · exact h0
    · rw [← hk]
      simp [BirthdayStation.freeEntry, hdt]
  · intro x hx
    rw [BirthdayStation.simulate_x_def, he] at hx
    simp only [List.map_cons, List.map_map, List.mem_cons, List.mem_map] at hx
    rcases hx with h0 | ⟨k, _, hk⟩
    · exact h0
    · rw [← hk]
      simp [BirthdayStation.freeEntry, hdt]
  · intro y hy
    rw [BirthdayStation.simulate_y_def, he] at hy
    simp only [List.map_cons, List.map_map, List.mem_cons, List.mem_map] at hy
    rcases hy with h0 | ⟨k, _, hk⟩
    · exact h0
    · rw [← hk]
      simp [BirthdayStation.freeEntry, hdt]

/-- Witness for the amended C3 at the default scenario geometry. -/
theorem simulate_zero_time_step_no_error_witness :
    BirthdayStation.hypot 0 (-10 + 2) < 10 ∧
    ((BirthdayStation.simulate 1 10 2 (0, 0) (some 0) 3).time.length = 3 + 1 ∧
    (∀ t ∈ (BirthdayStation.simulate 1 10 2 (0, 0) (some 0) 3).time,
      t = 0) ∧
    (∀ x ∈ (BirthdayStation.simulate 1 10 2 (0, 0) (some 0) 3).x_inertial,
      x = 0) ∧
    (∀ y ∈ (BirthdayStation.simulate 1 10 2 (0, 0) (some 0) 3).y_inertial,
      y = -10 + 2)) :=
  ⟨BirthdayStation.init_inside_ten_two,
    simulate_zero_time_step_no_error 1 10 2 0 0 3
      BirthdayStation.init_inside_ten_two⟩

/-- C4: whenever some post-advance free position within the step budget
reaches or exceeds the boundary radius, the run stops at the first such
step: the trajectory ends with the clamped entry (no entries are recorded
after it) and the final recorded position has norm exactly equal to the
boundary radius. -/
theorem simulate_radial_stop_clamps (ω R h : ℝ) (v : ℝ × ℝ)
    (ts : Option ℝ) (N : ℕ) (hR : 0 < R)
    (hcross : ∃ m : ℕ, m + 1 ≤ N ∧
      R ≤ BirthdayStation.hypot
        (BirthdayStation.freePos R h v.1 v.2
          (BirthdayStation.resolveTimeStep ω ts) (m + 1)).1
        (BirthdayStation.freePos R h v.1 v.2
          (BirthdayStation.resolveTimeStep ω ts) (m + 1)).2) :
    ∃ i : ℕ, i + 1 ≤ N ∧
      (∀ k, 1 ≤ k → k ≤ i →
        BirthdayStation.hypot
          (BirthdayStation.freePos R h v.1 v.2
            (BirthdayStation.resolveTimeStep ω ts) k).1
          (BirthdayStation.freePos R h v.1 v.2
            (BirthdayStation.resolveTimeStep ω ts) k).2 < R) ∧
      R ≤ BirthdayStation.hypot
        (BirthdayStation.freePos R h v.1 v.2
          (BirthdayStation.resolveTimeStep ω ts) (i + 1)).1
        (BirthdayStation.freePos R h v.1 v.2
          (BirthdayStation.resolveTimeStep ω ts) (i + 1)).2 ∧
      (BirthdayStation.simulate ω R h v ts N).time.length = i + 2 ∧
      ∃ lx ly,
        (BirthdayStation.simulate ω R h v ts N).x_inertial.getLast? =
            some lx ∧
          (BirthdayStation.simulate ω R h v ts N).y_inertial.getLast? =
            some ly ∧
          BirthdayStation.hypot lx ly = R := by
  classical
  obtain ⟨m0, hm0⟩ := hcross
  have hex : ∃ m : ℕ, m + 1 ≤ N ∧
      R ≤ BirthdayStation.hypot
        (BirthdayStation.freePos R h v.1 v.2
          (BirthdayStation.resolveTimeStep ω ts) (m + 1)).1
        (BirthdayStation.freePos R h v.1 v.2
          (BirthdayStation.resolveTimeStep ω ts) (m + 1)).2 := ⟨m0, hm0⟩
  refine ⟨Nat.find hex, (Nat.find_spec hex).1, ?_, (Nat.find_spec hex).2,
    ?_, ?_⟩
  case _ =>
    intro k hk1 hk2
    have hnot := Nat.find_min hex (m := k - 1) (by omega)
    rw [show k - 1 + 1 = k from by omega] at hnot
    push_neg at hnot
    exact hnot (by
      have := (Nat.find_spec hex).1
      omega)
  all_goals
    have hmin : ∀ k, 1 ≤ k → k ≤ Nat.find hex →
        BirthdayStation.hypot
          (BirthdayStation.freePos R h v.1 v.2
            (BirthdayStation.resolveTimeStep ω ts) k).1
          (BirthdayStation.freePos R h v.1 v.2
            (BirthdayStation.resolveTimeStep ω ts) k).2 < R := by
      intro k hk1 hk2
      have hnot := Nat.find_min hex (m := k - 1) (by omega)
      rw [show k - 1 + 1 = k from by omega] at hnot
      push_neg at hnot
      exact hnot (by
        have := (Nat.find_spec hex).1
        omega)
  all_goals
    have hentries := BirthdayStation.simEntries_eq_of_first_cross ω R h v ts N
      (Nat.find hex) (Nat.find_spec hex).1 hmin (Nat.find_spec hex).2
  · rw [BirthdayStation.simulate_time_def, List.length_map, hentries]
    simp
  · refine ⟨(BirthdayStation.clampEntry R
        (BirthdayStation.freeEntry v.1 v.2
          (BirthdayStation.resolveTimeStep ω ts)
          ((0 : ℝ), -R + h, 0) (Nat.find hex))).1,
      (BirthdayStation.clampEntry R
        (BirthdayStation.freeEntry v.1 v.2
          (BirthdayStation.resolveTimeStep ω ts)
          ((0 : ℝ), -R + h, 0) (Nat.find hex))).2.1, ?_, ?_, ?_⟩
    · rw [BirthdayStation.simulate_x_def, hentries, List.map_cons,
        List.map_append, List.map_singleton, ← List.cons_append,
        List.getLast?_concat]
    · rw [BirthdayStation.simulate_y_def, hentries, List.map_cons,
        List.map_append, List.map_singleton, ← List.cons_append,
        List.getLast?_concat]
    · have hfx := BirthdayStation.freeEntry_init_x R h v.1 v.2
        (BirthdayStation.resolveTimeStep ω ts) (Nat.find hex)
      have hfy := BirthdayStation.freeEntry_init_y R h v.1 v.2
        (BirthdayStation.resolveTimeStep ω ts) (Nat.find hex)
      simp only [BirthdayStation.clampEntry]
      exact BirthdayStation.hypot_radialClamp R _ _ hR (by
        rw [hfx, hfy]
        exact (Nat.find_spec hex).2)

/-- Witness for C4: release at `(0, -8)` with velocity `(0, -4)` and unit
time step — the very first advance lands at `(0, -12)`, outside the
circle of radius 10. -/
theorem simulate_radial_stop_clamps_witness :
    ((0 : ℝ) < 10 ∧ ∃ m : ℕ, m + 1 ≤ 5 ∧
      (10 : ℝ) ≤ BirthdayStation.hypot
        (BirthdayStation.freePos 10 2 ((0 : ℝ), (-4 : ℝ)).1
          ((0 : ℝ), (-4 : ℝ)).2
          (BirthdayStation.resolveTimeStep 1 (some 1)) (m + 1)).1
        (BirthdayStation.freePos 10 2 ((0 : ℝ), (-4 : ℝ)).1
          ((0 : ℝ), (-4 : ℝ)).2
          (BirthdayStation.resolveTimeStep 1 (some 1)) (m + 1)).2) ∧
    (∃ i : ℕ, i + 1 ≤ 5 ∧
      (∀ k, 1 ≤ k → k ≤ i →
        BirthdayStation.hypot
          (BirthdayStation.freePos 10 2 ((0 : ℝ), (-4 : ℝ)).1
            ((0 : ℝ), (-4 : ℝ)).2
            (BirthdayStation.resolveTimeStep 1 (some 1)) k).1
          (BirthdayStation.freePos 10 2 ((0 : ℝ), (-4 : ℝ)).1
            ((0 : ℝ), (-4 : ℝ)).2
            (BirthdayStation.resolveTimeStep 1 (some 1)) k).2 < 10) ∧
      (10 : ℝ) ≤ BirthdayStation.hypot
        (BirthdayStation.freePos 10 2 ((0 : ℝ), (-4 : ℝ)).1
          ((0 : ℝ), (-4 : ℝ)).2
          (BirthdayStation.resolveTimeStep 1 (some 1)) (i + 1)).1
        (BirthdayStation.freePos 10 2 ((0 : ℝ), (-4 : ℝ)).1
          ((0 : ℝ), (-4 : ℝ)).2
          (BirthdayStation.resolveTimeStep 1 (some 1)) (i + 1)).2 ∧
      (BirthdayStation.simulate 1 10 2 ((0 : ℝ), (-4 : ℝ))
          (some 1) 5).time.length = i + 2 ∧
      ∃ lx ly,
        (BirthdayStation.simulate 1 10 2 ((0 : ℝ), (-4 : ℝ))
            (some 1) 5).x_inertial.getLast? = some lx ∧
          (BirthdayStation.simulate 1 10 2 ((0 : ℝ), (-4 : ℝ))
              (some 1) 5).y_inertial.getLast? = some ly ∧
          BirthdayStation.hypot lx ly = 10) := by
  have hcr : ∃ m : ℕ, m + 1 ≤ 5 ∧
      (10 : ℝ) ≤ BirthdayStation.hypot
        (BirthdayStation.freePos 10 2 ((0 : ℝ), (-4 : ℝ)).1
          ((0 : ℝ), (-4 : ℝ)).2
          (BirthdayStation.resolveTimeStep 1 (some 1)) (m + 1)).1
        (BirthdayStation.freePos 10 2 ((0 : ℝ), (-4 : ℝ)).1
          ((0 : ℝ), (-4 : ℝ)).2
          (BirthdayStation.resolveTimeStep 1 (some 1)) (m + 1)).2 := by
    refine ⟨0, by norm_num, ?_⟩
    have hx : (BirthdayStation.freePos 10 2 ((0 : ℝ), (-4 : ℝ)).1
        ((0 : ℝ), (-4 : ℝ)).2
        (BirthdayStation.resolveTimeStep 1 (some 1)) (0 + 1)).1 = 0 := by
      simp [BirthdayStation.freePos, BirthdayStation.resolveTimeStep]
    have hy : (BirthdayStation.freePos 10 2 ((0 : ℝ), (-4 : ℝ)).1
        ((0 : ℝ), (-4 : ℝ)).2
        (BirthdayStation.resolveTimeStep 1 (some 1)) (0 + 1)).2 = -12 := by
      simp [BirthdayStation.freePos, BirthdayStation.resolveTimeStep]
      norm_num
    rw [hx, hy, BirthdayStation.hypot_zero_left,
      abs_of_nonpos (by norm_num : (-12 : ℝ) ≤ 0)]
    norm_num
  exact ⟨⟨by norm_num, hcr⟩,
    simulate_radial_stop_clamps 1 10 2 ((0 : ℝ), (-4 : ℝ)) (some 1) 5
      (by norm_num) hcr⟩

/-- C10: when the release point lies strictly inside the boundary circle,
every recorded entry except possibly the last has radial distance
strictly below `inner_radius`, no recorded entry lies outside the circle,
and at most one recorded entry (the clamped final one) lies on the
boundary. -/
theorem simulate_stays_inside_station (ω R h : ℝ) (v : ℝ × ℝ)
    (ts : Option ℝ) (N : ℕ)
    (hin : BirthdayStation.hypot 0 (-R + h) < R) :
    (∀ j, j + 1 < (BirthdayStation.simulate ω R h v ts N).time.length →
      BirthdayStation.hypot
        ((BirthdayStation.simulate ω R h v ts N).x_inertial.getD j 0)
        ((BirthdayStation.simulate ω R h v ts N).y_inertial.getD j 0) < R) ∧
    (∀ j, j < (BirthdayStation.simulate ω R h v ts N).time.length →
      BirthdayStation.hypot
        ((BirthdayStation.simulate ω R h v ts N).x_inertial.getD j 0)
        ((BirthdayStation.simulate ω R h v ts N).y_inertial.getD j 0) ≤ R) ∧
    (∀ j k, j < (BirthdayStation.simulate ω R h v ts N).time.length →
      k < (BirthdayStation.simulate ω R h v ts N).time.length →
      BirthdayStation.hypot
        ((BirthdayStation.simulate ω R h v ts N).x_inertial.getD j 0)
        ((BirthdayStation.simulate ω R h v ts N).y_inertial.getD j 0) = R →
      BirthdayStation.hypot
        ((BirthdayStation.simulate ω R h v ts N).x_inertial.getD k 0)
        ((BirthdayStation.simulate ω R h v ts N).y_inertial.getD k 0) = R →
      j = k) := by
  classical
  have hR : 0 < R := lt_of_le_of_lt (BirthdayStation.hypot_nonneg _ _) hin
  have hlen : (BirthdayStation.simulate ω R h v ts N).time.length =
      (BirthdayStation.simEntries ω R h v ts N).length := by
    rw [BirthdayStation.simulate_time_def, List.length_map]
  -- entry-level bounds, by cases on whether a crossing occurs
  have key : (∀ j, j + 1 < (BirthdayStation.simEntries ω R h v ts N).length →
        BirthdayStation.hypot
          ((BirthdayStation.simEntries ω R h v ts N).getD j
            BirthdayStation.junkEntry).1
          ((BirthdayStation.simEntries ω R h v ts N).getD j
            BirthdayStation.junkEntry).2.1 < R) ∧
      (∀ j, j < (BirthdayStation.simEntries ω R h v ts N).length →
        BirthdayStation.hypot
          ((BirthdayStation.simEntries ω R h v ts N).getD j
            BirthdayStation.junkEntry).1
          ((BirthdayStation.simEntries ω R h v ts N).getD j
            BirthdayStation.junkEntry).2.1 ≤ R) ∧
      (∀ j, j + 1 ≠ (BirthdayStation.simEntries ω R h v ts N).length →
        j < (BirthdayStation.simEntries ω R h v ts N).length →
        BirthdayStation.hypot
          ((BirthdayStation.simEntries ω R h v ts N).getD j
            BirthdayStation.junkEntry).1
          ((BirthdayStation.simEntries ω R h v ts N).getD j
            BirthdayStation.junkEntry).2.1 < R) := by
    by_cases hc : ∃ m : ℕ, m + 1 ≤ N ∧
        R ≤ BirthdayStation.hypot
          (BirthdayStation.freePos R h v.1 v.2
            (BirthdayStation.resolveTimeStep ω ts) (m + 1)).1
          (BirthdayStation.freePos R h v.1 v.2
            (BirthdayStation.resolveTimeStep ω ts) (m + 1)).2
    · -- a crossing happens: entries are the free prefix plus one clamp
      have hmin : ∀ k, 1 ≤ k → k ≤ Nat.find hc →
          BirthdayStation.hypot
            (BirthdayStation.freePos R h v.1 v.2
              (BirthdayStation.resolveTimeStep ω ts) k).1
            (BirthdayStation.freePos R h v.1 v.2
              (BirthdayStation.resolveTimeStep ω ts) k).2 < R := by
        intro k hk1 hk2
        have hnot := Nat.find_min hc (m := k - 1) (by omega)
        rw [show k - 1 + 1 = k from by omega] at hnot
        push_neg at hnot
        exact hnot (by
          have := (Nat.find_spec hc).1
          omega)
      have hentries := BirthdayStation.simEntries_eq_of_first_cross ω R h v ts
        N (Nat.find hc) (Nat.find_spec hc).1 hmin (Nat.find_spec hc).2
      have hlen2 : (BirthdayStation.simEntries ω R h v ts N).length =
          Nat.find hc + 2 := by
        rw [hentries]
        simp
      have hget : ∀ j, j < Nat.find hc + 1 →
          BirthdayStation.hypot
            ((BirthdayStation.simEntries ω R h v ts N).getD j
              BirthdayStation.junkEntry).1
            ((BirthdayStation.simEntries ω R h v ts N).getD j
              BirthdayStation.junkEntry).2.1 < R := by
        intro j hj
        rw [hentries]
        cases j with
        | zero => simpa using hin
        | succ j =>
            rw [List.getD_cons_succ,
              List.getD_append _ _ _ _
                (by simp only [List.length_map, List.length_range]; omega),
              BirthdayStation.getD_range_map _ _ _ _ (by omega),
              BirthdayStation.freeEntry_init_x R h v.1 v.2 _ j,
              BirthdayStation.freeEntry_init_y R h v.1 v.2 _ j]
            exact hmin (j + 1) (by omega) (by omega)
      have hgetlast :
          BirthdayStation.hypot
            ((BirthdayStation.simEntries ω R h v ts N).getD
              (Nat.find hc + 1) BirthdayStation.junkEntry).1
            ((BirthdayStation.simEntries ω R h v ts N).getD
              (Nat.find hc + 1) BirthdayStation.junkEntry).2.1 = R := by
        rw [hentries, List.getD_cons_succ,
          List.getD_append_right _ _ _ _ (by simp),
          show Nat.find hc - ((List.range (Nat.find hc)).map
            (BirthdayStation.freeEntry v.1 v.2
              (BirthdayStation.resolveTimeStep ω ts)
              ((0 : ℝ), -R + h, 0))).length = 0 from by simp]
        simp only [List.getD_cons_zero, BirthdayStation.clampEntry]
        refine BirthdayStation.hypot_radialClamp R _ _ hR ?_
        rw [BirthdayStation.freeEntry_init_x R h v.1 v.2 _ (Nat.find hc),
          BirthdayStation.freeEntry_init_y R h v.1 v.2 _ (Nat.find hc)]
        exact (Nat.find_spec hc).2
      refine ⟨?_, ?_, ?_⟩
      · intro j hj
        exact hget j (by omega)
      · intro j hj
        rcases Nat.lt_or_ge j (Nat.find hc + 1) with hj2 | hj2
        · exact le_of_lt (hget j hj2)
        · have hje : j = Nat.find hc + 1 := by omega
          rw [hje, hgetlast]
      · intro j hne hj
        exact hget j (by omega)
    · -- no crossing: every entry is a free position strictly inside
      push_neg at hc
      have hall : ∀ k, 1 ≤ k → k ≤ N →
          BirthdayStation.hypot
            (BirthdayStation.freePos R h v.1 v.2
              (BirthdayStation.resolveTimeStep ω ts) k).1
            (BirthdayStation.freePos R h v.1 v.2
              (BirthdayStation.resolveTimeStep ω ts) k).2 < R := by
        intro k hk1 hk2
        have := hc (k - 1) (by omega)
        rwa [show k - 1 + 1 = k from by omega] at this
      have hentries := BirthdayStation.simEntries_eq_of_no_cross ω R h v ts N
        hall
      have hget : ∀ j, j < (BirthdayStation.simEntries ω R h v ts N).length →
          BirthdayStation.hypot
            ((BirthdayStation.simEntries ω R h v ts N).getD j
              BirthdayStation.junkEntry).1
            ((BirthdayStation.simEntries ω R h v ts N).getD j
              BirthdayStation.junkEntry).2.1 < R := by
        intro j hj
        rw [hentries] at hj ⊢
        simp only [List.length_cons, List.length_map, List.length_range] at hj
        cases j with
        | zero => simpa using hin
        | succ j =>
            rw [List.getD_cons_succ,
              BirthdayStation.getD_range_map _ _ _ _ (by omega),
              BirthdayStation.freeEntry_init_x R h v.1 v.2 _ j,
              BirthdayStation.freeEntry_init_y R h v.1 v.2 _ j]
            exact hall (j + 1) (by omega) (by omega)
      exact ⟨fun j hj => hget j (by omega),
        fun j hj => le_of_lt (hget j hj),
        fun j _ hj => hget j hj⟩
  -- transport the entry-level bounds to the output dictionary
  have hfield : ∀ j, j < (BirthdayStation.simEntries ω R h v ts N).length →
      (BirthdayStation.simulate ω R h v ts N).x_inertial.getD j 0 =
        ((BirthdayStation.simEntries ω R h v ts N).getD j
          BirthdayStation.junkEntry).1 ∧
      (BirthdayStation.simulate ω R h v ts N).y_inertial.getD j 0 =
        ((BirthdayStation.simEntries ω R h v ts N).getD j
          BirthdayStation.junkEntry).2.1 :=
    fun j hj => BirthdayStation.simulate_pos_getD ω R h v ts N j hj
  refine ⟨?_, ?_, ?_⟩
  · intro j hj
    rw [hlen] at hj
    rw [(hfield j (by omega)).1, (hfield j (by omega)).2]
    exact key.1 j hj
  · intro j hj
    rw [hlen] at hj
    rw [(hfield j hj).1, (hfield j hj).2]
    exact key.2.1 j hj
  · intro j k hj hk hjR hkR
    rw [hlen] at hj hk
    rw [(hfield j hj).1, (hfield j hj).2] at hjR
    rw [(hfield k hk).1, (hfield k hk).2] at hkR
    by_contra hne
    rcases Nat.lt_or_ge (j + 1) (BirthdayStation.simEntries ω R h v ts
        N).length with hj2 | hj2
    · rcases Nat.lt_or_ge (k + 1) (BirthdayStation.simEntries ω R h v ts
          N).length with hk2 | hk2
      · exact absurd hjR (ne_of_lt (key.1 j hj2))
      · exact absurd hjR (ne_of_lt (key.1 j hj2))
    · rcases Nat.lt_or_ge (k + 1) (BirthdayStation.simEntries ω R h v ts
          N).length with hk2 | hk2
      · exact absurd hkR (ne_of_lt (key.1 k hk2))
      · omega

/-- Witness for C10 at the default scenario geometry. -/
theorem simulate_stays_inside_station_witness :
    BirthdayStation.hypot 0 (-10 + 2) < 10 ∧
    ((∀ j, j + 1 < (BirthdayStation.simulate 1 10 2 (3, 0) (some 1)
        4).time.length →
      BirthdayStation.hypot
        ((BirthdayStation.simulate 1 10 2 (3, 0) (some 1) 4).x_inertial.getD
          j 0)
        ((BirthdayStation.simulate 1 10 2 (3, 0) (some 1) 4).y_inertial.getD
          j 0) < 10) ∧
    (∀ j, j < (BirthdayStation.simulate 1 10 2 (3, 0) (some 1)
        4).time.length →
      BirthdayStation.hypot
        ((BirthdayStation.simulate 1 10 2 (3, 0) (some 1) 4).x_inertial.getD
          j 0)
        ((BirthdayStation.simulate 1 10 2 (3, 0) (some 1) 4).y_inertial.getD
          j 0) ≤ 10) ∧
    (∀ j k, j < (BirthdayStation.simulate 1 10 2 (3, 0) (some 1)
        4).time.length →
      k < (BirthdayStation.simulate 1 10 2 (3, 0) (some 1) 4).time.length →
      BirthdayStation.hypot
        ((BirthdayStation.simulate 1 10 2 (3, 0) (some 1) 4).x_inertial.getD
          j 0)
        ((BirthdayStation.simulate 1 10 2 (3, 0) (some 1) 4).y_inertial.getD
          j 0) = 10 →
      BirthdayStation.hypot
        ((BirthdayStation.simulate 1 10 2 (3, 0) (some 1) 4).x_inertial.getD
          k 0)
        ((BirthdayStation.simulate 1 10 2 (3, 0) (some 1) 4).y_inertial.getD
          k 0) = 10 →
      j = k)) :=
  ⟨BirthdayStation.init_inside_ten_two,
    simulate_stays_inside_station 1 10 2 (3, 0) (some 1) 4
      BirthdayStation.init_inside_ten_two⟩

/-- C1 counterexample: `simulate_motion` does NOT test the wall predicate
on the position produced by the current step's advance.  With a single
body released at `x = 1`, already past the wall at `x = 0`, with velocity
`+1`, the source order (test the recorded start-of-step position, then
advance) reflects immediately and moves to `x = 0`, while the spec order
(advance, then test the post-advance position) first moves on to `x = 2`;
the recorded trajectories differ at index 1. -/
theorem simulate_motion_precheck_counterexample :
    TwoBallsBounce.simulate_motion [((1 : ℚ), 0, 0)] [((1 : ℚ), 0, 0)]
        0 1 1 ≠
      TwoBallsBounce.simulateMotionPostCheck [((1 : ℚ), 0, 0)]
        [((1 : ℚ), 0, 0)] 0 1 1 := by
  have hn : TwoBallsBounce.numSteps 1 1 = 2 := by
    rw [TwoBallsBounce.numSteps, if_pos (by norm_num)]
    norm_num
  rw [TwoBallsBounce.simulate_motion, TwoBallsBounce.simulateMotionPostCheck,
    hn]
  norm_num [TwoBallsBounce.bounceLoop, TwoBallsBounce.postLoop,
    TwoBallsBounce.bounceStep, TwoBallsBounce.postStep,
    TwoBallsBounce.bounceBody, TwoBallsBounce.postBody,
    TwoBallsBounce.checkBody, TwoBallsBounce.advanceBody,
    TwoBallsBounce.flipX, Prod.ext_iff]

/-- C1 amended: in `simulate` (birthday_station.py) each recorded entry
is indeed obtained from its predecessor by advancing first and then
evaluating the radial rule on the post-advance position.  In
`simulate_motion` (two_balls_bounce.py) the wall predicate is instead
tested on the position recorded at the start of the step, before the
advance; this coincides with the spec's post-advance order at every step
after the first, so the recorded trajectories agree whenever every body
starts strictly inside the wall.  (When a body starts at or beyond the
wall the two orders can disagree, as the counterexample shows.) -/
theorem advance_then_check_order (ip iv : List TwoBallsBounce.Vec3)
    (w dt stop : ℚ) (ω R h : ℝ) (v : ℝ × ℝ) (ts : Option ℝ) (N : ℕ)
    (hin : ∀ p ∈ ip, p.1 < w) :
    TwoBallsBounce.simulate_motion ip iv w dt stop =
      TwoBallsBounce.simulateMotionPostCheck ip iv w dt stop ∧
    (∀ j, j + 1 < (BirthdayStation.simEntries ω R h v ts N).length →
      (BirthdayStation.simEntries ω R h v ts N).getD (j + 1)
          BirthdayStation.junkEntry =
        BirthdayStation.stepEntry v.1 v.2
          (BirthdayStation.resolveTimeStep ω ts) R
          ((BirthdayStation.simEntries ω R h v ts N).getD j
            BirthdayStation.junkEntry)) := by
  constructor
  · rw [TwoBallsBounce.simulate_motion, TwoBallsBounce.simulateMotionPostCheck]
    apply List.ext_get
    · rw [TwoBallsBounce.bounceLoop_length, TwoBallsBounce.postLoop_length]
    · intro j h1 h2
      rw [TwoBallsBounce.bounceLoop_get, TwoBallsBounce.postLoop_get]
      rw [show TwoBallsBounce.bounceStep w dt =
            List.map (TwoBallsBounce.bounceBody w dt) from rfl,
          show TwoBallsBounce.postStep w dt =
            List.map (TwoBallsBounce.postBody w dt) from rfl,
          TwoBallsBounce.map_iterate, TwoBallsBounce.map_iterate,
          List.map_map, List.map_map]
      apply List.map_congr_left
      intro b hb
      have hblt : b.1.1 < w := hin b.1 (List.of_mem_zip hb).1
      have hcheck : TwoBallsBounce.checkBody w b = b :=
        TwoBallsBounce.checkBody_of_lt w b hblt
      have hcomm := TwoBallsBounce.postBody_iterate_eq w dt j b
      rw [hcheck] at hcomm
      simp only [Function.comp_apply]
      rw [hcomm, TwoBallsBounce.fst_checkBody]
  · intro j hj
    rw [BirthdayStation.simEntries] at hj ⊢
    exact BirthdayStation.simulateLoop_chain v.1 v.2
      (BirthdayStation.resolveTimeStep ω ts) R N _ j hj

/-- Witness for the amended C1: a body starting strictly inside the wall,
and a concrete station run. -/
theorem advance_then_check_order_witness :
    (∀ p ∈ ([((-1 : ℚ), 0, 0)] : List TwoBallsBounce.Vec3), p.1 < 0) ∧
    (TwoBallsBounce.simulate_motion [((-1 : ℚ), 0, 0)] [((1 : ℚ), 0, 0)]
        0 1 1 =
      TwoBallsBounce.simulateMotionPostCheck [((-1 : ℚ), 0, 0)]
        [((1 : ℚ), 0, 0)] 0 1 1 ∧
    (∀ j, j + 1 < (BirthdayStation.simEntries 1 10 2 (0, 0) (some 1)
        3).length →
      (BirthdayStation.simEntries 1 10 2 (0, 0) (some 1) 3).getD (j + 1)
          BirthdayStation.junkEntry =
        BirthdayStation.stepEntry 0 0
          (BirthdayStation.resolveTimeStep 1 (some 1)) 10
          ((BirthdayStation.simEntries 1 10 2 (0, 0) (some 1) 3).getD j
            BirthdayStation.junkEntry))) := by
  have hin : ∀ p ∈ ([((-1 : ℚ), 0, 0)] : List TwoBallsBounce.Vec3),
      p.1 < 0 := by
    intro p hp
    simp only [List.mem_singleton] at hp
    subst hp
    norm_num
  exact ⟨hin, advance_then_check_order _ _ _ _ _ 1 10 2 (0, 0) (some 1) 3 hin⟩

/-- C5: when a body crosses the wall at step `i` (its recorded position is
strictly inside at step `i - 1 = j` and at or beyond the wall at step
`i = j + 1`), its x-velocity at step `i + 1 = j + 2` is the exact negation
of the one at step `i - 1` — strictly opposite in sign since the latter is
positive — while the other two components are unchanged, so the squared
speed is preserved; and no reflection ever removes a body: every recorded
array keeps one row per body. -/
theorem simulate_motion_reflects_velocity (ip iv : List TwoBallsBounce.Vec3)
    (w dt stop : ℚ) (b j : ℕ) (hdt : 0 < dt) (hlen : ip.length = iv.length)
    (hb : b < ip.length) (hrun : j + 2 < TwoBallsBounce.numSteps dt stop)
    (hbefore : ((TwoBallsBounce.bounceState ip iv w dt j).getD b
      TwoBallsBounce.defaultBody).1.1 < w)
    (hcross : w ≤ ((TwoBallsBounce.bounceState ip iv w dt (j + 1)).getD b
      TwoBallsBounce.defaultBody).1.1) :
    ((TwoBallsBounce.bounceState ip iv w dt (j + 2)).getD b
        TwoBallsBounce.defaultBody).2.1 =
      -(((TwoBallsBounce.bounceState ip iv w dt j).getD b
        TwoBallsBounce.defaultBody).2.1) ∧
    0 < ((TwoBallsBounce.bounceState ip iv w dt j).getD b
      TwoBallsBounce.defaultBody).2.1 ∧
    ((TwoBallsBounce.bounceState ip iv w dt (j + 2)).getD b
        TwoBallsBounce.defaultBody).2.2.1 =
      ((TwoBallsBounce.bounceState ip iv w dt j).getD b
        TwoBallsBounce.defaultBody).2.2.1 ∧
    ((TwoBallsBounce.bounceState ip iv w dt (j + 2)).getD b
        TwoBallsBounce.defaultBody).2.2.2 =
      ((TwoBallsBounce.bounceState ip iv w dt j).getD b
        TwoBallsBounce.defaultBody).2.2.2 ∧
    (((TwoBallsBounce.bounceState ip iv w dt (j + 2)).getD b
        TwoBallsBounce.defaultBody).2.1) ^ 2 +
      (((TwoBallsBounce.bounceState ip iv w dt (j + 2)).getD b
        TwoBallsBounce.defaultBody).2.2.1) ^ 2 +
      (((TwoBallsBounce.bounceState ip iv w dt (j + 2)).getD b
        TwoBallsBounce.defaultBody).2.2.2) ^ 2 =
      (((TwoBallsBounce.bounceState ip iv w dt j).getD b
        TwoBallsBounce.defaultBody).2.1) ^ 2 +
      (((TwoBallsBounce.bounceState ip iv w dt j).getD b
        TwoBallsBounce.defaultBody).2.2.1) ^ 2 +
      (((TwoBallsBounce.bounceState ip iv w dt j).getD b
        TwoBallsBounce.defaultBody).2.2.2) ^ 2 ∧
    ∀ rec ∈ TwoBallsBounce.simulate_motion ip iv w dt stop,
      rec.length = ip.length := by
  have hzb : b < (ip.zip iv).length := by
    rw [List.length_zip]
    omega
  have hstate : ∀ k, (TwoBallsBounce.bounceState ip iv w dt k).getD b
      TwoBallsBounce.defaultBody =
      (TwoBallsBounce.bounceBody w dt)^[k]
        ((ip.zip iv).getD b TwoBallsBounce.defaultBody) := by
    intro k
    rw [TwoBallsBounce.bounceState]
    exact TwoBallsBounce.bounceStep_iterate_getD w dt k _ b hzb
  simp only [hstate] at hbefore hcross ⊢
  set u : ℕ → TwoBallsBounce.Body := fun k =>
    (TwoBallsBounce.bounceBody w dt)^[k]
      ((ip.zip iv).getD b TwoBallsBounce.defaultBody) with hu
  have hs1 : u (j + 1) = TwoBallsBounce.advanceBody dt (u j) := by
    have hit : u (j + 1) = TwoBallsBounce.bounceBody w dt (u j) :=
      Function.iterate_succ_apply' _ _ _
    rw [hit, TwoBallsBounce.bounceBody,
      TwoBallsBounce.checkBody_of_lt w _ hbefore]
  have hvel1 : (u (j + 1)).2 = (u j).2 := by
    rw [hs1]
    rfl
  have hposx : (u (j + 1)).1.1 = (u j).1.1 + (u j).2.1 * dt := by
    rw [hs1]
    rfl
  have hpos : 0 < (u j).2.1 := by
    rw [hposx] at hcross
    nlinarith
  have hs2 : u (j + 2) = TwoBallsBounce.advanceBody dt
      ((u (j + 1)).1, TwoBallsBounce.flipX (u (j + 1)).2) := by
    have hit : u (j + 2) = TwoBallsBounce.bounceBody w dt (u (j + 1)) :=
      Function.iterate_succ_apply' _ _ _
    rw [hit, TwoBallsBounce.bounceBody, TwoBallsBounce.checkBody,
      if_pos hcross]
  have hvel2 : (u (j + 2)).2 = TwoBallsBounce.flipX ((u j).2) := by
    rw [hs2, show (TwoBallsBounce.advanceBody dt
      ((u (j + 1)).1, TwoBallsBounce.flipX (u (j + 1)).2)).2 =
        TwoBallsBounce.flipX (u (j + 1)).2 from rfl, hvel1]
  refine ⟨?_, hpos, ?_, ?_, ?_, ?_⟩
  · rw [hvel2]; rfl
  · rw [hvel2]; rfl
  · rw [hvel2]; rfl
  · rw [hvel2]
    show (-(u j).2.1) ^ 2 + ((u j).2.2.1) ^ 2 + ((u j).2.2.2) ^ 2 = _
    ring
  · intro rec hrec
    rw [TwoBallsBounce.simulate_motion_record_length ip iv w dt stop rec hrec,
      List.length_zip]
    omega

/-- Witness for C5: a single body released at `x = -1` with x-velocity 1,
unit time step, wall at `x = 0` — it is inside at step 0, on the wall at
step 1, and reflected from step 2 on. -/
theorem simulate_motion_reflects_velocity_witness :
    ((0 : ℚ) < 1 ∧ 0 + 2 < TwoBallsBounce.numSteps 1 5 ∧
      ((TwoBallsBounce.bounceState [((-1 : ℚ), 0, 0)] [((1 : ℚ), 0, 0)]
          0 1 0).getD 0 TwoBallsBounce.defaultBody).1.1 < 0 ∧
      (0 : ℚ) ≤ ((TwoBallsBounce.bounceState [((-1 : ℚ), 0, 0)]
          [((1 : ℚ), 0, 0)] 0 1 (0 + 1)).getD 0
          TwoBallsBounce.defaultBody).1.1) ∧
    (((TwoBallsBounce.bounceState [((-1 : ℚ), 0, 0)] [((1 : ℚ), 0, 0)]
          0 1 (0 + 2)).getD 0 TwoBallsBounce.defaultBody).2.1 =
        -(((TwoBallsBounce.bounceState [((-1 : ℚ), 0, 0)] [((1 : ℚ), 0, 0)]
          0 1 0).getD 0 TwoBallsBounce.defaultBody).2.1) ∧
      0 < ((TwoBallsBounce.bounceState [((-1 : ℚ), 0, 0)] [((1 : ℚ), 0, 0)]
        0 1 0).getD 0 TwoBallsBounce.defaultBody).2.1 ∧
      ((TwoBallsBounce.bounceState [((-1 : ℚ), 0, 0)] [((1 : ℚ), 0, 0)]
          0 1 (0 + 2)).getD 0 TwoBallsBounce.defaultBody).2.2.1 =
        ((TwoBallsBounce.bounceState [((-1 : ℚ), 0, 0)] [((1 : ℚ), 0, 0)]
          0 1 0).getD 0 TwoBallsBounce.defaultBody).2.2.1 ∧
      ((TwoBallsBounce.bounceState [((-1 : ℚ), 0, 0)] [((1 : ℚ), 0, 0)]
          0 1 (0 + 2)).getD 0 TwoBallsBounce.defaultBody).2.2.2 =
        ((TwoBallsBounce.bounceState [((-1 : ℚ), 0, 0)] [((1 : ℚ), 0, 0)]
          0 1 0).getD 0 TwoBallsBounce.defaultBody).2.2.2 ∧
      (((TwoBallsBounce.bounceState [((-1 : ℚ), 0, 0)] [((1 : ℚ), 0, 0)]
          0 1 (0 + 2)).getD 0 TwoBallsBounce.defaultBody).2.1) ^ 2 +
        (((TwoBallsBounce.bounceState [((-1 : ℚ), 0, 0)] [((1 : ℚ), 0, 0)]
          0 1 (0 + 2)).getD 0 TwoBallsBounce.defaultBody).2.2.1) ^ 2 +
        (((TwoBallsBounce.bounceState [((-1 : ℚ), 0, 0)] [((1 : ℚ), 0, 0)]
          0 1 (0 + 2)).getD 0 TwoBallsBounce.defaultBody).2.2.2) ^ 2 =
        (((TwoBallsBounce.bounceState [((-1 : ℚ), 0, 0)] [((1 : ℚ), 0, 0)]
          0 1 0).getD 0 TwoBallsBounce.defaultBody).2.1) ^ 2 +
        (((TwoBallsBounce.bounceState [((-1 : ℚ), 0, 0)] [((1 : ℚ), 0, 0)]
          0 1 0).getD 0 TwoBallsBounce.defaultBody).2.2.1) ^ 2 +
        (((TwoBallsBounce.bounceState [((-1 : ℚ), 0, 0)] [((1 : ℚ), 0, 0)]
          0 1 0).getD 0 TwoBallsBounce.defaultBody).2.2.2) ^ 2 ∧
      ∀ rec ∈ TwoBallsBounce.simulate_motion [((-1 : ℚ), 0, 0)]
          [((1 : ℚ), 0, 0)] 0 1 5,
        rec.length = ([((-1 : ℚ), 0, 0)] :
          List TwoBallsBounce.Vec3).length) := by
  have hn : TwoBallsBounce.numSteps 1 5 = 6 := by
    rw [TwoBallsBounce.numSteps, if_pos (by norm_num)]
    norm_num
    decide
  have hrun : 0 + 2 < TwoBallsBounce.numSteps 1 5 := by
    rw [hn]
    norm_num
  have hbefore : ((TwoBallsBounce.bounceState [((-1 : ℚ), 0, 0)]
      [((1 : ℚ), 0, 0)] 0 1 0).getD 0 TwoBallsBounce.defaultBody).1.1 < 0 := by
    norm_num [TwoBallsBounce.bounceState]
  have hcross : (0 : ℚ) ≤ ((TwoBallsBounce.bounceState [((-1 : ℚ), 0, 0)]
      [((1 : ℚ), 0, 0)] 0 1 (0 + 1)).getD 0
      TwoBallsBounce.defaultBody).1.1 := by
    norm_num [TwoBallsBounce.bounceState, TwoBallsBounce.bounceStep,
      TwoBallsBounce.bounceBody, TwoBallsBounce.checkBody,
      TwoBallsBounce.advanceBody, TwoBallsBounce.flipX]
  exact ⟨⟨by norm_num, hrun, hbefore, hcross⟩,
    simulate_motion_reflects_velocity [((-1 : ℚ), 0, 0)] [((1 : ℚ), 0, 0)]
      0 1 5 0 0 (by norm_num) rfl (by norm_num) hrun hbefore hcross⟩

/-- C9: neither variant of `simulate_motion` mutates its input arrays —
the arrays at the caller's addresses hold the same values after the call
as before it — and every recorded output array is a fresh allocation,
never aliased to either input. -/
theorem simulate_motion_preserves_inputs (h0 : HeapModel.Heap) (ip iv : ℕ)
    (w dt stop : ℚ) (hip : ip < h0.next) (hiv : iv < h0.next) :
    (HeapModel.hread (HeapModel.simulate_motion_heap h0 ip iv w dt stop).1
          ip = HeapModel.hread h0 ip ∧
      HeapModel.hread (HeapModel.simulate_motion_heap h0 ip iv w dt stop).1
          iv = HeapModel.hread h0 iv ∧
      ∀ r ∈ (HeapModel.simulate_motion_heap h0 ip iv w dt stop).2,
        r ≠ ip ∧ r ≠ iv) ∧
    (HeapModel.hread (HeapModel.cross_simulate_motion_heap h0 ip iv dt
          stop).1 ip = HeapModel.hread h0 ip ∧
      HeapModel.hread (HeapModel.cross_simulate_motion_heap h0 ip iv dt
          stop).1 iv = HeapModel.hread h0 iv ∧
      ∀ r ∈ (HeapModel.cross_simulate_motion_heap h0 ip iv dt stop).2,
        r ≠ ip ∧ r ≠ iv) := by
  have hreadip : HeapModel.hread
      (HeapModel.halloc (HeapModel.halloc h0 (HeapModel.hread h0 ip)).1
        (HeapModel.hread (HeapModel.halloc h0 (HeapModel.hread h0 ip)).1
          iv)).1 ip = HeapModel.hread h0 ip := by
    rw [HeapModel.hread_halloc_of_lt _ _ _ (by
        rw [HeapModel.next_halloc]
        omega),
      HeapModel.hread_halloc_of_lt _ _ _ hip]
  have hreadiv : HeapModel.hread
      (HeapModel.halloc (HeapModel.halloc h0 (HeapModel.hread h0 ip)).1
        (HeapModel.hread (HeapModel.halloc h0 (HeapModel.hread h0 ip)).1
          iv)).1 iv = HeapModel.hread h0 iv := by
    rw [HeapModel.hread_halloc_of_lt _ _ _ (by
        rw [HeapModel.next_halloc]
        omega),
      HeapModel.hread_halloc_of_lt _ _ _ hiv]
  have hnextB : (HeapModel.halloc (HeapModel.halloc h0
      (HeapModel.hread h0 ip)).1
      (HeapModel.hread (HeapModel.halloc h0 (HeapModel.hread h0 ip)).1
        iv)).1.next = h0.next + 2 := rfl
  constructor
  · rw [HeapModel.simulate_motion_heap_eq]
    obtain ⟨hmono, hframe, hout⟩ := HeapModel.bounceHeapLoop_frame w dt
      (TwoBallsBounce.numSteps dt stop)
      (HeapModel.halloc (HeapModel.halloc h0 (HeapModel.hread h0 ip)).1
        (HeapModel.hread (HeapModel.halloc h0 (HeapModel.hread h0 ip)).1
          iv)).1
      h0.next (h0.next + 1) [] (by omega) (by omega)
    refine ⟨?_, ?_, ?_⟩
    · rw [hframe ip (by omega) (by omega) (by omega), hreadip]
    · rw [hframe iv (by omega) (by omega) (by omega), hreadiv]
    · intro r hr
      rcases hout r hr with habs | hge
      · simp at habs
      · rw [hnextB] at hge
        exact ⟨by omega, by omega⟩
  · rw [HeapModel.cross_simulate_motion_heap_eq]
    obtain ⟨hmono, hframe, hout⟩ := HeapModel.crossHeapLoop_frame dt
      (TwoBallsBounce.numSteps dt stop)
      (HeapModel.halloc (HeapModel.halloc h0 (HeapModel.hread h0 ip)).1
        (HeapModel.hread (HeapModel.halloc h0 (HeapModel.hread h0 ip)).1
          iv)).1
      h0.next (h0.next + 1) []
    refine ⟨?_, ?_, ?_⟩
    · rw [hframe ip (by omega), hreadip]
    · rw [hframe iv (by omega), hreadiv]
    · intro r hr
      rcases hout r hr with habs | hge
      · simp at habs
      · rw [hnextB] at hge
        exact ⟨by omega, by omega⟩

/-- Witness for C9 on a concrete two-address heap. -/
theorem simulate_motion_preserves_inputs_witness :
    (0 < HeapModel.testHeap.next ∧ 1 < HeapModel.testHeap.next) ∧
    ((HeapModel.hread (HeapModel.simulate_motion_heap HeapModel.testHeap
          0 1 0 1 1).1 0 = HeapModel.hread HeapModel.testHeap 0 ∧
      HeapModel.hread (HeapModel.simulate_motion_heap HeapModel.testHeap
          0 1 0 1 1).1 1 = HeapModel.hread HeapModel.testHeap 1 ∧
      ∀ r ∈ (HeapModel.simulate_motion_heap HeapModel.testHeap
          0 1 0 1 1).2, r ≠ 0 ∧ r ≠ 1) ∧
    (HeapModel.hread (HeapModel.cross_simulate_motion_heap
          HeapModel.testHeap 0 1 1 1).1 0 =
        HeapModel.hread HeapModel.testHeap 0 ∧
      HeapModel.hread (HeapModel.cross_simulate_motion_heap
          HeapModel.testHeap 0 1 1 1).1 1 =
        HeapModel.hread HeapModel.testHeap 1 ∧
      ∀ r ∈ (HeapModel.cross_simulate_motion_heap HeapModel.testHeap
          0 1 1 1).2, r ≠ 0 ∧ r ≠ 1)) :=
  ⟨⟨by norm_num [HeapModel.testHeap], by norm_num [HeapModel.testHeap]⟩,
    simulate_motion_preserves_inputs HeapModel.testHeap 0 1 0 1 1
      (by norm_num [HeapModel.testHeap]) (by norm_num [HeapModel.testHeap])⟩

end Claims
